import Mathlib

/-! # SimpleVector: a verification development

A shallow embedding of `simple-vector/simple_vector.h` and theorems about it.

Conventions of the embedding.

* A buffer is the list of the values held by its slots, one entry per allocated
  slot. Every `SimpleVector` owns its buffer exclusively (buffers change hands
  by `swap` only), so an object is the triple of its three data members.
* An iterator is a pointer into the buffer of one vector; it is represented by
  its offset from the start of that buffer, so `begin()` is `0` and `end()` is
  `size_`.
* `size_t` is represented by `Nat`. A buffer of `capacity_` slots has been
  allocated, hence `capacity_` is below `2^63` and `capacity_ * 2`, `size_ + 1`
  do not wrap; `--size_` is only reached with `size_ > 0` inside the
  preconditions of `Erase` and `PopBack`.
* Allocation is assumed to succeed. The slots of a newly allocated buffer hold
  arbitrary values, supplied by a parameter `fresh : Nat → α`.
* Moving an element is an assignment; the slot moved from keeps its value (as
  for a trivially copyable `Type`).
* A read or write through a pointer outside the buffer is undefined behaviour
  in the source; in the embedding such a write has no effect.
* `Insert` and `PushBack` receive their value by reference and read it only
  after the elements have been shifted or the buffer replaced. The argument is
  therefore a `ValueRef`: an object outside the buffer of the vector, or a slot
  of that buffer. A read through a reference to a released buffer is undefined
  behaviour; it is a read of `none`, and the assignment from it has no effect.
-/

/-! ## The owned buffer -/

/-- Modelled from the spec: `array_ptr.h` is not among the sources. An `ArrayPtr`
is the content of the region it owns, slot by slot; the null pointer owns no slot. -/
abbrev ArrayPtr (α : Type) := List α

/-- Modelled from the spec: `ArrayPtr(size)` obtains raw storage for `size`
elements without constructing values; slot `i` of the new region holds the
arbitrary value `fresh i`. -/
def ArrayPtr.alloc {α : Type} (fresh : Nat → α) (size : Nat) : ArrayPtr α :=
  (List.range size).map fresh

/-- Modelled from the spec: `ArrayPtr::swap` exchanges the owned regions of two
buffers without touching an element. -/
def ArrayPtr.swap {α : Type} (a b : ArrayPtr α) : ArrayPtr α × ArrayPtr α :=
  (b, a)

/-- The assignment `*(buf + i) = x`, where `x` has been read through a pointer:
`none` stands for a read outside the buffer read from. -/
def ArrayPtr.assign {α : Type} (buf : ArrayPtr α) (i : Nat) (x : Option α) : ArrayPtr α :=
  match x with
  | some a => buf.set i a
  | none => buf

/-! ## The standard algorithms used by the class -/

/-- The pair exchange `std::swap(a, b)`. -/
def std_swap {β : Type} (a b : β) : β × β := (b, a)

/-- The body of `std::move(first, last, d_first)` between two different buffers:
`n` iterations of `*d_first++ = std::move(*first++)`. -/
def std_move_loop {α : Type} (src : ArrayPtr α) :
    Nat → Nat → ArrayPtr α → Nat → ArrayPtr α
  | 0, _, dst, _ => dst
  | n + 1, first, dst, d_first =>
    std_move_loop src n (first + 1) (dst.assign d_first src[first]?) (d_first + 1)

/-- The algorithm `std::move(first, last, d_first)` reading `src` and writing
`dst`; returns the written buffer and the iterator past the last element written. -/
def std_move {α : Type} (src : ArrayPtr α) (first last : Nat) (dst : ArrayPtr α)
    (d_first : Nat) : ArrayPtr α × Nat :=
  (std_move_loop src (last - first) first dst d_first, d_first + (last - first))

/-- The algorithm `std::copy(first, last, d_first)` reading `src` and writing `dst`. -/
def std_copy {α : Type} (src : List α) (first last : Nat) (dst : ArrayPtr α)
    (d_first : Nat) : ArrayPtr α × Nat :=
  (std_move_loop src (last - first) first dst d_first, d_first + (last - first))

/-- The body of `std::move(first, last, d_first)` when source and destination
are the same buffer: `n` iterations of `*d_first++ = std::move(*first++)`. -/
def std_move_within_loop {α : Type} :
    Nat → Nat → Nat → ArrayPtr α → ArrayPtr α
  | 0, _, _, buf => buf
  | n + 1, first, d_first, buf =>
    std_move_within_loop n (first + 1) (d_first + 1) (buf.assign d_first buf[first]?)

/-- The algorithm `std::move(first, last, d_first)` inside one buffer. -/
def std_move_within {α : Type} (buf : ArrayPtr α) (first last d_first : Nat) :
    ArrayPtr α × Nat :=
  (std_move_within_loop (last - first) first d_first buf, d_first + (last - first))

/-- The body of `std::move_backward(first, last, d_last)` inside one buffer:
`n` iterations of `*(--d_last) = std::move(*(--last))`. -/
def std_move_backward_loop {α : Type} :
    Nat → Nat → Nat → ArrayPtr α → ArrayPtr α
  | 0, _, _, buf => buf
  | n + 1, last, d_last, buf =>
    std_move_backward_loop n (last - 1) (d_last - 1)
      (buf.assign (d_last - 1) buf[last - 1]?)

/-- The algorithm `std::move_backward(first, last, d_last)` inside one buffer;
returns the buffer and the iterator to the last element written. -/
def std_move_backward {α : Type} (buf : ArrayPtr α) (first last d_last : Nat) :
    ArrayPtr α × Nat :=
  (std_move_backward_loop (last - first) last d_last buf, d_last - (last - first))

/-- The body of `std::fill` and `std::generate`: `n` iterations of `*first++ = g()`. -/
def std_generate_loop {α : Type} (g : Unit → α) : Nat → Nat → ArrayPtr α → ArrayPtr α
  | 0, _, buf => buf
  | n + 1, first, buf => std_generate_loop g n (first + 1) (buf.set first (g ()))

/-- The algorithm `std::generate(first, last, g)`. -/
def std_generate {α : Type} (buf : ArrayPtr α) (first last : Nat) (g : Unit → α) :
    ArrayPtr α :=
  std_generate_loop g (last - first) first buf

/-- The algorithm `std::fill(first, last, value)`. -/
def std_fill {α : Type} (buf : ArrayPtr α) (first last : Nat) (value : α) : ArrayPtr α :=
  std_generate_loop (fun _ => value) (last - first) first buf

/-- The body of `std::equal`: `n` iterations comparing `*first1++` with `*first2++`,
stopping with `false` at the first pair that does not compare equal. -/
def std_equal_loop {α : Type} [BEq α] (b1 b2 : ArrayPtr α) : Nat → Nat → Nat → Bool
  | 0, _, _ => true
  | n + 1, first1, first2 =>
    match b1[first1]?, b2[first2]? with
    | some x, some y => if x == y then std_equal_loop b1 b2 n (first1 + 1) (first2 + 1) else false
    | _, _ => false

/-- The four-iterator `std::equal(first1, last1, first2, last2)` on random access
iterators: ranges of different lengths are unequal, otherwise the elements are
compared in order. -/
def std_equal {α : Type} [BEq α] (b1 : ArrayPtr α) (first1 last1 : Nat)
    (b2 : ArrayPtr α) (first2 last2 : Nat) : Bool :=
  if last1 - first1 ≠ last2 - first2 then false
  else std_equal_loop b1 b2 (last1 - first1) first1 first2

/-- The body of `std::lexicographical_compare`: while `first1 != last1` and
`first2 != last2`, return `true` if `*first1 < *first2`, `false` if `*first2 < *first1`,
otherwise advance both; after the loop return `first1 == last1 && first2 != last2`.
The first argument bounds the number of iterations; `last1 - first1` is enough. -/
def std_lexicographical_compare_loop {α : Type} [LT α] [∀ a b : α, Decidable (a < b)]
    (b1 : ArrayPtr α) (last1 : Nat) (b2 : ArrayPtr α) (last2 : Nat) : Nat → Nat → Nat → Bool
  | 0, first1, first2 => decide (first1 = last1) && decide (first2 ≠ last2)
  | n + 1, first1, first2 =>
    if first1 ≠ last1 ∧ first2 ≠ last2 then
      match b1[first1]?, b2[first2]? with
      | some x, some y =>
        if x < y then true
        else if y < x then false
        else std_lexicographical_compare_loop b1 last1 b2 last2 n (first1 + 1) (first2 + 1)
      | _, _ => false
    else decide (first1 = last1) && decide (first2 ≠ last2)

/-- The algorithm `std::lexicographical_compare(first1, last1, first2, last2)`. -/
def std_lexicographical_compare {α : Type} [LT α] [∀ a b : α, Decidable (a < b)]
    (b1 : ArrayPtr α) (first1 last1 : Nat) (b2 : ArrayPtr α) (first2 last2 : Nat) : Bool :=
  std_lexicographical_compare_loop b1 last1 b2 last2 (last1 - first1) first1 first2

/-- The lexicographic comparison of two sequences by recursion on the lists: the
reference against which `std_lexicographical_compare` is proved. -/
def lexLess {α : Type} [LT α] [∀ a b : α, Decidable (a < b)] : List α → List α → Bool
  | [], [] => false
  | [], _ :: _ => true
  | _ :: _, [] => false
  | x :: xs, y :: ys => if x < y then true else if y < x then false else lexLess xs ys

/-- The exception `std::out_of_range`, holding the message passed to its constructor. -/
structure std_out_of_range where
  what : String

/-! ## The class -/

/-- The class `ReserveProxyObj`: a capacity to reserve. -/
structure ReserveProxyObj where
  capacity_ : Nat

/-- The member `ReserveProxyObj::GetCapacity`. -/
def ReserveProxyObj.GetCapacity (object : ReserveProxyObj) : Nat := object.capacity_

/-- The free function `Reserve(capacity_to_reserve)`. -/
def Reserve (capacity_to_reserve : Nat) : ReserveProxyObj :=
  { capacity_ := capacity_to_reserve }

/-- What the argument `const Type& value` (or `Type&& value`) of `Insert` and
`PushBack` refers to when the member is called: an object that is not a slot of the
buffer of the vector, holding `x`, or the slot at offset `i` of that buffer. -/
inductive ValueRef (α : Type) where
  | outside (x : α) : ValueRef α
  | slot (i : Nat) : ValueRef α

/-- The data members of `SimpleVector<Type>`, with their default member
initialisers: a null buffer, `size_ = 0`, `capacity_ = 0`. -/
structure SimpleVector (α : Type) where
  storage_ : ArrayPtr α := []
  size_ : Nat := 0
  capacity_ : Nat := 0

namespace SimpleVector

variable {α : Type}

/-- The member `GetSize`. -/
def GetSize (v : SimpleVector α) : Nat := v.size_

/-- The member `GetCapacity`. -/
def GetCapacity (v : SimpleVector α) : Nat := v.capacity_

/-- The member `IsEmpty`. -/
def IsEmpty (v : SimpleVector α) : Bool := v.size_ == 0

/-- The iterator `begin()`. -/
def begin (_v : SimpleVector α) : Nat := 0

/-- The iterator `end()`. -/
def «end» (v : SimpleVector α) : Nat := v.size_

/-- The visible sequence: the values of the slots in `[begin(), end())`. -/
def toList (v : SimpleVector α) : List α := v.storage_.take v.size_

/-- The data invariant: `size_ ≤ capacity_` and the buffer has `capacity_` slots. -/
def Inv (v : SimpleVector α) : Prop :=
  v.size_ ≤ v.capacity_ ∧ v.storage_.length = v.capacity_

instance (v : SimpleVector α) : Decidable v.Inv := by
  unfold Inv
  infer_instance

/-- The capacity reached by doubling from the empty vector: `0` for no element,
otherwise a power of two in `[n, 2 * n)`. -/
def Doubled (n cap : Nat) : Prop :=
  (n = 0 → cap = 0) ∧ (n ≠ 0 → ∃ k, cap = 2 ^ k ∧ n ≤ cap ∧ cap < 2 * n)

/-- The member `swap`. Returns the two objects after the exchange. -/
def swap (self other : SimpleVector α) : SimpleVector α × SimpleVector α :=
  let s := ArrayPtr.swap self.storage_ other.storage_
  let n := std_swap self.size_ other.size_
  let c := std_swap self.capacity_ other.capacity_
  ({ storage_ := s.1, size_ := n.1, capacity_ := c.1 },
   { storage_ := s.2, size_ := n.2, capacity_ := c.2 })

/-- The member `Reserve`. -/
def Reserve (fresh : Nat → α) (v : SimpleVector α) (new_capacity : Nat) : SimpleVector α :=
  if new_capacity > v.capacity_ then
    let tmp := ArrayPtr.alloc fresh new_capacity
    let r := std_move v.storage_ v.begin v.end tmp 0
    let s := ArrayPtr.swap v.storage_ r.1
    { v with storage_ := s.1, capacity_ := new_capacity }
  else v

/-- The private member `PrepareArrayForInsertion`. Returns the vector and the
iterator to the slot opened for the new value. -/
def PrepareArrayForInsertion (fresh : Nat → α) (v : SimpleVector α) (pos : Nat) :
    SimpleVector α × Nat :=
  if v.size_ < v.capacity_ then
    let r := std_move_backward v.storage_ pos v.end (v.end + 1)
    ({ v with storage_ := r.1, size_ := v.size_ + 1 }, r.2 - 1)
  else
    let new_capacity := v.capacity_ * 2
    let tmp := ArrayPtr.alloc fresh (max new_capacity 1)
    let r := std_move v.storage_ v.begin pos tmp 0
    let r2 := std_move v.storage_ pos v.end r.1 (r.2 + 1)
    let s := ArrayPtr.swap v.storage_ r2.1
    ({ storage_ := s.1, size_ := v.size_ + 1, capacity_ := max new_capacity 1 }, r.2)

/-- The read of `value` in the statement `*it = value` of `Insert`, which comes after
`PrepareArrayForInsertion` has turned the vector `v` into `w`. An object outside the
buffer still holds its value. A slot of the buffer is read as it is then: with room
(`size_ < capacity_`) the buffer is the same region with its elements shifted; without
room that region was swapped into `tmp` and released with it, and the read is undefined
behaviour (`none`). -/
def readValue (v w : SimpleVector α) (value : ValueRef α) : Option α :=
  match value with
  | ValueRef.outside x => some x
  | ValueRef.slot i => if v.size_ < v.capacity_ then w.storage_[i]? else none

/-- The member `Insert` (both overloads): `PrepareArrayForInsertion`, then the value is
read through the reference and assigned to the opened slot. Returns the vector and the
iterator to the inserted value. -/
def Insert (fresh : Nat → α) (v : SimpleVector α) (pos : Nat) (value : ValueRef α) :
    SimpleVector α × Nat :=
  let r := v.PrepareArrayForInsertion fresh pos
  ({ r.1 with storage_ := r.1.storage_.assign r.2 (readValue v r.1 value) }, r.2)

/-- The member `PushBack` (both overloads); the reference is passed on to `Insert`. -/
def PushBack (fresh : Nat → α) (v : SimpleVector α) (item : ValueRef α) : SimpleVector α :=
  (v.Insert fresh v.end item).1

/-- The member `PopBack`; `none` is the failure of `assert(size_ > 0)`. -/
def PopBack (v : SimpleVector α) : Option (SimpleVector α) :=
  if v.size_ > 0 then some { v with size_ := v.size_ - 1 } else none

/-- The member `Erase`. Returns the vector and the iterator `pos`. -/
def Erase (v : SimpleVector α) (pos : Nat) : SimpleVector α × Nat :=
  let r := std_move_within v.storage_ (pos + 1) v.end pos
  ({ v with storage_ := r.1, size_ := v.size_ - 1 }, pos)

/-- The member `Clear`. -/
def Clear (v : SimpleVector α) : SimpleVector α := { v with size_ := 0 }

/-- The member `Resize`; `default` is `Type{}`. -/
def Resize [Inhabited α] (fresh : Nat → α) (v : SimpleVector α) (new_size : Nat) :
    SimpleVector α :=
  let previous_size := v.size_
  if new_size ≤ v.size_ then
    { v with size_ := new_size }
  else if new_size ≤ v.capacity_ ∧ new_size > v.size_ then
    { v with
      storage_ := std_generate v.storage_ (v.begin + previous_size) (v.begin + new_size)
        (fun _ => default),
      size_ := new_size }
  else
    let w := v.Reserve fresh (max new_size (v.capacity_ * 2))
    { w with
      storage_ := std_generate w.storage_ (w.begin + previous_size) (w.begin + new_size)
        (fun _ => default),
      size_ := new_size }

/-- The unchecked read `v[index]`; `none` is a read outside the buffer. -/
def index (v : SimpleVector α) (index : Nat) : Option α := v.storage_[index]?

/-- The write `v[index] = value` through the reference returned by `operator[]`. -/
def setIndex (v : SimpleVector α) (index : Nat) (value : α) : SimpleVector α :=
  { v with storage_ := v.storage_.set index value }

/-- The member `At` (both overloads): the exception thrown, or the slot
`storage_[index]` read (`none` is a read outside the buffer). The body reads the
members and assigns to none of them. -/
def At (v : SimpleVector α) (index : Nat) : Except std_out_of_range (Option α) :=
  if index ≥ v.size_ then
    Except.error { what := "Invalid index" }
  else
    Except.ok v.storage_[index]?

/-! ### Constructors and assignment -/

/-- The default constructor. -/
def ctor : SimpleVector α := {}

/-- The constructor `SimpleVector(size_t size)`; `default` is `Type{}`. -/
def ctorSize [Inhabited α] (fresh : Nat → α) (size : Nat) : SimpleVector α :=
  let v : SimpleVector α :=
    { storage_ := ArrayPtr.alloc fresh size, size_ := size, capacity_ := size }
  if size ≠ 0 then { v with storage_ := std_fill v.storage_ v.begin v.end default } else v

/-- The constructor `SimpleVector(size_t size, const Type& value)`. -/
def ctorFill (fresh : Nat → α) (size : Nat) (value : α) : SimpleVector α :=
  let v : SimpleVector α :=
    { storage_ := ArrayPtr.alloc fresh size, size_ := size, capacity_ := size }
  if size ≠ 0 then { v with storage_ := std_fill v.storage_ v.begin v.end value } else v

/-- The constructor from `std::initializer_list<Type>`. -/
def ctorInit (fresh : Nat → α) (init : List α) : SimpleVector α :=
  let v : SimpleVector α := { size_ := init.length, capacity_ := init.length }
  if init.length ≠ 0 then
    let tmp := ArrayPtr.alloc fresh init.length
    let r := std_copy init 0 init.length tmp 0
    let s := ArrayPtr.swap v.storage_ r.1
    { v with storage_ := s.1 }
  else v

/-- The loop of the copy constructor: `n` iterations of `tmp.PushBack(*it); ++it`. The
argument `*it` is a slot of the buffer of `other`, an object outside the buffer of `tmp`. -/
def ctorCopy_loop (fresh : Nat → α) (other : SimpleVector α) :
    Nat → Nat → SimpleVector α → SimpleVector α
  | 0, _, tmp => tmp
  | n + 1, it, tmp =>
    match other.storage_[it]? with
    | some x => ctorCopy_loop fresh other n (it + 1) (tmp.PushBack fresh (ValueRef.outside x))
    | none => ctorCopy_loop fresh other n (it + 1) tmp

/-- The copy constructor `SimpleVector(const SimpleVector& other)`. Returns the new
object and `other`, which is only read (it is a reference to const). -/
def ctorCopy (fresh : Nat → α) (other : SimpleVector α) : SimpleVector α × SimpleVector α :=
  let tmp := ctorCopy_loop fresh other (other.end - other.begin) other.begin ctor
  ((swap ctor tmp).1, other)

/-- The move constructor `SimpleVector(SimpleVector&& other)`. Returns the new
object and `other` after the move. -/
def ctorMove (other : SimpleVector α) : SimpleVector α × SimpleVector α :=
  swap ctor other

/-- The constructor `SimpleVector(ReserveProxyObj object)`. -/
def ctorReserve (fresh : Nat → α) (object : ReserveProxyObj) : SimpleVector α :=
  Reserve fresh ctor object.GetCapacity

/-- Copy assignment `self = rhs` for two different objects (`this != &rhs`; for
`this == &rhs` nothing is done). Returns `self` and `rhs` after the assignment. -/
def assignCopy (fresh : Nat → α) (self rhs : SimpleVector α) :
    SimpleVector α × SimpleVector α :=
  let tmp := ctorCopy fresh rhs
  ((swap self tmp.1).1, tmp.2)

/-- Move assignment `self = std::move(rhs)` for two different objects (`this != &rhs`;
for `this == &rhs` nothing is done). Returns `self` and `rhs` after the assignment. -/
def assignMove (self rhs : SimpleVector α) : SimpleVector α × SimpleVector α :=
  swap self rhs

/-- The comparison `operator==`. -/
def eq [BEq α] (lhs rhs : SimpleVector α) : Bool :=
  std_equal lhs.storage_ lhs.begin lhs.end rhs.storage_ rhs.begin rhs.end

/-- The comparison `operator!=`. -/
def ne [BEq α] (lhs rhs : SimpleVector α) : Bool := !(eq lhs rhs)

/-- The comparison `operator<`. -/
def lt [LT α] [∀ a b : α, Decidable (a < b)] (lhs rhs : SimpleVector α) : Bool :=
  std_lexicographical_compare lhs.storage_ lhs.begin lhs.end rhs.storage_ rhs.begin rhs.end

/-- The comparison `operator>`. -/
def gt [LT α] [∀ a b : α, Decidable (a < b)] (lhs rhs : SimpleVector α) : Bool :=
  lt rhs lhs

/-- The comparison `operator<=`. -/
def le [LT α] [∀ a b : α, Decidable (a < b)] (lhs rhs : SimpleVector α) : Bool :=
  !(gt lhs rhs)

/-- The comparison `operator>=`. -/
def ge [LT α] [∀ a b : α, Decidable (a < b)] (lhs rhs : SimpleVector α) : Bool :=
  le rhs lhs

end SimpleVector

/-! ## Lemmas on the loops -/

section loops

variable {α : Type}

theorem std_move_loop_length (src : ArrayPtr α) (n first : Nat) (dst : ArrayPtr α) (d : Nat) :
    (std_move_loop src n first dst d).length = dst.length := by
  induction n generalizing first dst d with
  | zero => rfl
  | succ n ih =>
    rw [std_move_loop, ih]
    cases src[first]? <;> simp [ArrayPtr.assign]

theorem std_move_loop_getElem? (src : ArrayPtr α) (n first : Nat) (dst : ArrayPtr α)
    (d : Nat) (hsrc : first + n ≤ src.length) (i : Nat) :
    (std_move_loop src n first dst d)[i]? =
      if d ≤ i ∧ i < d + n ∧ i < dst.length then src[first + (i - d)]? else dst[i]? := by
  induction n generalizing first dst d with
  | zero =>
    have : ¬ (d ≤ i ∧ i < d + 0 ∧ i < dst.length) := by omega
    rw [std_move_loop, if_neg this]
  | succ n ih =>
    have hf : first < src.length := by omega
    rw [std_move_loop, ih (first + 1) _ (d + 1) (by omega)]
    simp only [List.getElem?_eq_getElem hf, ArrayPtr.assign, List.length_set, List.getElem?_set]
    by_cases hid : d = i
    · subst hid
      by_cases hl : d < dst.length
      · have h1 : ¬ (d + 1 ≤ d ∧ d < d + 1 + n ∧ d < dst.length) := by omega
        have h2 : (d ≤ d ∧ d < d + (n + 1) ∧ d < dst.length) := by omega
        simp [h1, h2, hl, List.getElem?_eq_getElem hf]
      · have h1 : ¬ (d + 1 ≤ d ∧ d < d + 1 + n ∧ d < dst.length) := by omega
        have h2 : ¬ (d ≤ d ∧ d < d + (n + 1) ∧ d < dst.length) := by omega
        simp only [if_neg h1, if_neg h2, if_neg hl, if_true]
        rw [List.getElem?_eq_none (Nat.le_of_not_lt hl)]
    · by_cases hc : d + 1 ≤ i ∧ i < d + 1 + n ∧ i < dst.length
      · have h2 : (d ≤ i ∧ i < d + (n + 1) ∧ i < dst.length) := by omega
        have h3 : first + 1 + (i - (d + 1)) = first + (i - d) := by omega
        simp only [if_pos hc, if_pos h2, h3]
      · have h2 : ¬ (d ≤ i ∧ i < d + (n + 1) ∧ i < dst.length) := by omega
        simp only [if_neg hc, if_neg h2, if_neg hid]

theorem std_move_within_loop_length (n first d : Nat) (buf : ArrayPtr α) :
    (std_move_within_loop n first d buf).length = buf.length := by
  induction n generalizing first d buf with
  | zero => rfl
  | succ n ih =>
    rw [std_move_within_loop, ih]
    cases buf[first]? <;> simp [ArrayPtr.assign]

theorem std_move_within_loop_getElem? (n first d : Nat) (buf : ArrayPtr α)
    (hd : d ≤ first) (hbuf : first + n ≤ buf.length) (i : Nat) :
    (std_move_within_loop n first d buf)[i]? =
      if d ≤ i ∧ i < d + n then buf[first + (i - d)]? else buf[i]? := by
  induction n generalizing first d buf with
  | zero =>
    have : ¬ (d ≤ i ∧ i < d + 0) := by omega
    rw [std_move_within_loop, if_neg this]
  | succ n ih =>
    have hf : first < buf.length := by omega
    have hdl : d < buf.length := by omega
    rw [std_move_within_loop, ih (first + 1) (d + 1) _ (by omega)
      (by simp only [List.getElem?_eq_getElem hf, ArrayPtr.assign, List.length_set]; omega)]
    simp only [List.getElem?_eq_getElem hf, ArrayPtr.assign, List.getElem?_set]
    by_cases hc : d + 1 ≤ i ∧ i < d + 1 + n
    · have h2 : d ≤ i ∧ i < d + (n + 1) := by omega
      have h3 : first + 1 + (i - (d + 1)) = first + (i - d) := by omega
      have h4 : ¬ d = first + (i - d) := by omega
      simp only [if_pos hc, if_pos h2, h3, if_neg h4]
    · by_cases hid : d = i
      · subst hid
        have h2 : d ≤ d ∧ d < d + (n + 1) := by omega
        simp only [if_neg hc, if_pos h2, if_pos hdl, if_true, Nat.sub_self, Nat.add_zero,
          List.getElem?_eq_getElem hf]
      · have h2 : ¬ (d ≤ i ∧ i < d + (n + 1)) := by omega
        simp only [if_neg hc, if_neg h2, if_neg hid]

theorem std_move_backward_loop_length (n last d_last : Nat) (buf : ArrayPtr α) :
    (std_move_backward_loop n last d_last buf).length = buf.length := by
  induction n generalizing last d_last buf with
  | zero => rfl
  | succ n ih =>
    rw [std_move_backward_loop, ih]
    cases buf[last - 1]? <;> simp [ArrayPtr.assign]

theorem std_move_backward_loop_getElem? (n last d_last : Nat) (buf : ArrayPtr α)
    (hn : n ≤ last) (hl : last ≤ d_last) (hbuf : d_last ≤ buf.length) (i : Nat) :
    (std_move_backward_loop n last d_last buf)[i]? =
      if d_last - n ≤ i ∧ i < d_last then buf[i - (d_last - last)]? else buf[i]? := by
  induction n generalizing last d_last buf with
  | zero =>
    have : ¬ (d_last - 0 ≤ i ∧ i < d_last) := by omega
    rw [std_move_backward_loop, if_neg this]
  | succ n ih =>
    have hf : last - 1 < buf.length := by omega
    have hdl : d_last - 1 < buf.length := by omega
    rw [std_move_backward_loop, ih (last - 1) (d_last - 1) _ (by omega) (by omega)
      (by simp only [List.getElem?_eq_getElem hf, ArrayPtr.assign, List.length_set]; omega)]
    simp only [List.getElem?_eq_getElem hf, ArrayPtr.assign, List.getElem?_set]
    by_cases hc : d_last - 1 - n ≤ i ∧ i < d_last - 1
    · have h2 : d_last - (n + 1) ≤ i ∧ i < d_last := by omega
      have h3 : i - (d_last - 1 - (last - 1)) = i - (d_last - last) := by omega
      have h4 : ¬ d_last - 1 = i - (d_last - last) := by omega
      simp only [if_pos hc, if_pos h2, h3, if_neg h4]
    · by_cases hid : d_last - 1 = i
      · have h2 : d_last - (n + 1) ≤ i ∧ i < d_last := by omega
        have h3 : i - (d_last - last) = last - 1 := by omega
        simp only [if_neg hc, if_pos h2, if_pos hid, if_pos hdl, h3,
          List.getElem?_eq_getElem hf]
      · have h2 : ¬ (d_last - (n + 1) ≤ i ∧ i < d_last) := by omega
        simp only [if_neg hc, if_neg h2, if_neg hid]

theorem std_generate_loop_length (g : Unit → α) (n first : Nat) (buf : ArrayPtr α) :
    (std_generate_loop g n first buf).length = buf.length := by
  induction n generalizing first buf with
  | zero => rfl
  | succ n ih => rw [std_generate_loop, ih, List.length_set]

theorem std_generate_loop_getElem? (g : Unit → α) (n first : Nat) (buf : ArrayPtr α) (i : Nat) :
    (std_generate_loop g n first buf)[i]? =
      if first ≤ i ∧ i < first + n ∧ i < buf.length then some (g ()) else buf[i]? := by
  induction n generalizing first buf with
  | zero =>
    have : ¬ (first ≤ i ∧ i < first + 0 ∧ i < buf.length) := by omega
    rw [std_generate_loop, if_neg this]
  | succ n ih =>
    rw [std_generate_loop, ih]
    simp only [List.length_set, List.getElem?_set]
    by_cases hc : first + 1 ≤ i ∧ i < first + 1 + n ∧ i < buf.length
    · have h2 : first ≤ i ∧ i < first + (n + 1) ∧ i < buf.length := by omega
      simp only [if_pos hc, if_pos h2]
    · by_cases hid : first = i
      · subst hid
        by_cases hl : first < buf.length
        · have h2 : first ≤ first ∧ first < first + (n + 1) ∧ first < buf.length := by omega
          simp only [if_neg hc, if_pos h2, if_pos hl, if_true]
        · have h2 : ¬ (first ≤ first ∧ first < first + (n + 1) ∧ first < buf.length) := by
            omega
          simp only [if_neg hc, if_neg h2, if_neg hl, if_true]
          rw [List.getElem?_eq_none (Nat.le_of_not_lt hl)]
      · have h2 : ¬ (first ≤ i ∧ i < first + (n + 1) ∧ i < buf.length) := by omega
        simp only [if_neg hc, if_neg h2, if_neg hid]

end loops

namespace SimpleVector

variable {α : Type}

theorem alloc_length (fresh : Nat → α) (n : Nat) : (ArrayPtr.alloc fresh n).length = n := by
  simp [ArrayPtr.alloc]

theorem assign_length (buf : ArrayPtr α) (i : Nat) (o : Option α) :
    (ArrayPtr.assign buf i o).length = buf.length := by
  cases o <;> simp [ArrayPtr.assign]

theorem assign_getElem?_ne (buf : ArrayPtr α) (i : Nat) (o : Option α) (j : Nat) (h : i ≠ j) :
    (ArrayPtr.assign buf i o)[j]? = buf[j]? := by
  cases o with
  | none => rfl
  | some a => simp only [ArrayPtr.assign, List.getElem?_set, if_neg h]

theorem Prepare_snd (fresh : Nat → α) (v : SimpleVector α) (p : Nat) (hp : p ≤ v.size_) :
    (v.PrepareArrayForInsertion fresh p).2 = p := by
  unfold PrepareArrayForInsertion std_move_backward std_move «end» begin
  split
  · show v.size_ + 1 - (v.size_ - p) - 1 = p
    omega
  · show 0 + (p - 0) = p
    omega

theorem Prepare_size (fresh : Nat → α) (v : SimpleVector α) (p : Nat) :
    (v.PrepareArrayForInsertion fresh p).1.size_ = v.size_ + 1 := by
  unfold PrepareArrayForInsertion
  split <;> rfl

theorem Prepare_capacity (fresh : Nat → α) (v : SimpleVector α) (p : Nat) :
    (v.PrepareArrayForInsertion fresh p).1.capacity_ =
      if v.size_ < v.capacity_ then v.capacity_ else max (v.capacity_ * 2) 1 := by
  unfold PrepareArrayForInsertion
  split <;> rfl

theorem Prepare_storage_length (fresh : Nat → α) (v : SimpleVector α) (p : Nat)
    (hbuf : v.storage_.length = v.capacity_) :
    (v.PrepareArrayForInsertion fresh p).1.storage_.length =
      (v.PrepareArrayForInsertion fresh p).1.capacity_ := by
  unfold PrepareArrayForInsertion std_move_backward std_move ArrayPtr.swap
  split
  · simp [std_move_backward_loop_length, hbuf]
  · simp [std_move_loop_length, alloc_length]

theorem Prepare_getElem? (fresh : Nat → α) (v : SimpleVector α) (p : Nat)
    (hinv : v.Inv) (hp : p ≤ v.size_) (i : Nat) (hi : i ≤ v.size_) (hne : i ≠ p) :
    (v.PrepareArrayForInsertion fresh p).1.storage_[i]? =
      if i < p then v.storage_[i]? else v.storage_[i - 1]? := by
  obtain ⟨hsz, hbuf⟩ := hinv
  unfold PrepareArrayForInsertion std_move_backward std_move ArrayPtr.swap «end» begin
  split
  · next hlt =>
    show (std_move_backward_loop (v.size_ - p) v.size_ (v.size_ + 1) v.storage_)[i]? = _
    rw [std_move_backward_loop_getElem? _ _ _ _ (by omega) (by omega) (by omega)]
    by_cases h1 : i < p
    · have h3 : ¬ (v.size_ + 1 - (v.size_ - p) ≤ i ∧ i < v.size_ + 1) := by omega
      simp only [if_pos h1, if_neg h3]
    · have h3 : (v.size_ + 1 - (v.size_ - p) ≤ i ∧ i < v.size_ + 1) := by omega
      have h5 : i - (v.size_ + 1 - v.size_) = i - 1 := by omega
      simp only [if_neg h1, if_pos h3, h5]
  · next hge =>
    have hfull : v.size_ = v.capacity_ := by omega
    show (std_move_loop v.storage_ (v.size_ - p) p
      (std_move_loop v.storage_ (p - 0) 0 (ArrayPtr.alloc fresh (max (v.capacity_ * 2) 1)) 0)
      (0 + (p - 0) + 1))[i]? = _
    rw [std_move_loop_getElem? _ _ _ _ _ (by omega), std_move_loop_getElem? _ _ _ _ _ (by omega)]
    simp only [std_move_loop_length, alloc_length, Nat.zero_le, true_and, Nat.sub_zero,
      Nat.zero_add]
    by_cases h1 : i < p
    · have h3 : ¬ (p + 1 ≤ i ∧ i < p + 1 + (v.size_ - p) ∧ i < max (v.capacity_ * 2) 1) := by
        omega
      have h4 : (i < p ∧ i < max (v.capacity_ * 2) 1) := by omega
      simp only [if_pos h1, if_neg h3, if_pos h4]
    · have h3 : (p + 1 ≤ i ∧ i < p + 1 + (v.size_ - p) ∧ i < max (v.capacity_ * 2) 1) := by
        omega
      have h5 : p + (i - (p + 1)) = i - 1 := by omega
      simp only [if_neg h1, if_pos h3, h5]

theorem Insert_snd (fresh : Nat → α) (v : SimpleVector α) (p : Nat) (x : ValueRef α)
    (hp : p ≤ v.size_) : (v.Insert fresh p x).2 = p :=
  Prepare_snd fresh v p hp

theorem Insert_size (fresh : Nat → α) (v : SimpleVector α) (p : Nat) (x : ValueRef α) :
    (v.Insert fresh p x).1.size_ = v.size_ + 1 :=
  Prepare_size fresh v p

theorem Insert_capacity (fresh : Nat → α) (v : SimpleVector α) (p : Nat) (x : ValueRef α) :
    (v.Insert fresh p x).1.capacity_ =
      if v.size_ < v.capacity_ then v.capacity_ else max (v.capacity_ * 2) 1 :=
  Prepare_capacity fresh v p

theorem Insert_storage_length (fresh : Nat → α) (v : SimpleVector α) (p : Nat)
    (x : ValueRef α) (hbuf : v.storage_.length = v.capacity_) :
    (v.Insert fresh p x).1.storage_.length = (v.Insert fresh p x).1.capacity_ := by
  show (ArrayPtr.assign _ _ _).length = (v.PrepareArrayForInsertion fresh p).1.capacity_
  rw [assign_length, Prepare_storage_length fresh v p hbuf]

theorem Insert_getElem?_ne (fresh : Nat → α) (v : SimpleVector α) (p : Nat) (x : ValueRef α)
    (hinv : v.Inv) (hp : p ≤ v.size_) (i : Nat) (hi : i ≤ v.size_) (hne : i ≠ p) :
    (v.Insert fresh p x).1.storage_[i]? =
      if i < p then v.storage_[i]? else v.storage_[i - 1]? := by
  show (ArrayPtr.assign _ _ _)[i]? = _
  rw [assign_getElem?_ne _ _ _ _ (by rw [Prepare_snd fresh v p hp]; omega),
    Prepare_getElem? fresh v p hinv hp i hi hne]

theorem Insert_lt_length (fresh : Nat → α) (v : SimpleVector α) (p : Nat) (x : ValueRef α)
    (hinv : v.Inv) (hp : p ≤ v.size_) : p < (v.Insert fresh p x).1.storage_.length := by
  have := hinv.1
  rw [Insert_storage_length fresh v p x hinv.2, Insert_capacity]
  split <;> omega

theorem Insert_getElem?_outside (fresh : Nat → α) (v : SimpleVector α) (p : Nat) (x : α)
    (hinv : v.Inv) (hp : p ≤ v.size_) :
    (v.Insert fresh p (ValueRef.outside x)).1.storage_[p]? = some x := by
  have hlt := Insert_lt_length fresh v p (ValueRef.outside x) hinv hp
  have hlen : p < (v.PrepareArrayForInsertion fresh p).1.storage_.length := by
    have h : (v.Insert fresh p (ValueRef.outside x)).1.storage_.length =
        (v.PrepareArrayForInsertion fresh p).1.storage_.length := by
      show ((v.PrepareArrayForInsertion fresh p).1.storage_.set
        (v.PrepareArrayForInsertion fresh p).2 x).length = _
      rw [List.length_set]
    omega
  show ((v.PrepareArrayForInsertion fresh p).1.storage_.set
    (v.PrepareArrayForInsertion fresh p).2 x)[p]? = some x
  rw [Prepare_snd fresh v p hp, List.getElem?_set, if_pos rfl, if_pos hlen]

theorem Insert_getElem? (fresh : Nat → α) (v : SimpleVector α) (p : Nat) (x : α)
    (hinv : v.Inv) (hp : p ≤ v.size_) (i : Nat) (hi : i ≤ v.size_) :
    (v.Insert fresh p (ValueRef.outside x)).1.storage_[i]? =
      if i < p then v.storage_[i]? else if i = p then some x else v.storage_[i - 1]? := by
  by_cases h : i = p
  · subst h
    rw [Insert_getElem?_outside fresh v i x hinv hp, if_neg (Nat.lt_irrefl _), if_pos rfl]
  · rw [Insert_getElem?_ne fresh v p _ hinv hp i hi h, if_neg h]

theorem insertion_getElem? (l : List α) (p : Nat) (x : α) (hp : p ≤ l.length) (i : Nat) :
    (l.take p ++ x :: l.drop p)[i]? =
      if i < p then l[i]? else if i = p then some x else l[i - 1]? := by
  have hlen : (l.take p).length = p := by simp [List.length_take]; omega
  rw [List.getElem?_append, hlen]
  by_cases h1 : i < p
  · simp only [if_pos h1, List.getElem?_take]
  · by_cases h2 : i = p
    · subst h2
      simp
    · have h3 : ¬ i - p = 0 := by omega
      have h4 : p + (i - p - 1) = i - 1 := by omega
      simp only [if_neg h1, if_neg h2, List.getElem?_cons, if_neg h3, List.getElem?_drop, h4]

theorem Insert_toList_of_slot (fresh : Nat → α) (v : SimpleVector α) (p : Nat)
    (x : ValueRef α) (y : α) (hinv : v.Inv) (hp : p ≤ v.size_)
    (hy : (v.Insert fresh p x).1.storage_[p]? = some y) :
    (v.Insert fresh p x).1.toList = v.toList.take p ++ y :: v.toList.drop p := by
  have hlen : v.toList.length = v.size_ := by
    simp only [toList, List.length_take]; have := hinv.1; have := hinv.2; omega
  apply List.ext_getElem?
  intro i
  rw [insertion_getElem? _ _ _ (by omega)]
  simp only [toList, Insert_size, List.getElem?_take]
  by_cases hi : i < v.size_ + 1
  · rw [if_pos hi]
    by_cases h2 : i = p
    · subst h2
      rw [hy, if_neg (Nat.lt_irrefl _), if_pos rfl]
    · rw [Insert_getElem?_ne fresh v p x hinv hp i (by omega) h2]
      by_cases h1 : i < p
      · have h3 : i < v.size_ := by omega
        simp only [if_pos h1, if_pos h3]
      · have h3 : i - 1 < v.size_ := by omega
        simp only [if_neg h1, if_neg h2, if_pos h3]
  · have h1 : ¬ i < p := by omega
    have h2 : ¬ i = p := by omega
    have h3 : ¬ i - 1 < v.size_ := by omega
    simp only [if_neg hi, if_neg h1, if_neg h2, if_neg h3]

theorem Insert_toList (fresh : Nat → α) (v : SimpleVector α) (p : Nat) (x : α)
    (hinv : v.Inv) (hp : p ≤ v.size_) :
    (v.Insert fresh p (ValueRef.outside x)).1.toList =
      v.toList.take p ++ x :: v.toList.drop p :=
  Insert_toList_of_slot fresh v p _ x hinv hp (Insert_getElem?_outside fresh v p x hinv hp)

theorem Insert_outside_sequence (fresh : Nat → α) (v : SimpleVector α) (p : Nat) (x : α)
    (hinv : v.Inv) (hp : p ≤ v.size_) :
    (v.Insert fresh p (ValueRef.outside x)).1.toList =
      v.toList.take p ++ x :: v.toList.drop p ∧
    (v.Insert fresh p (ValueRef.outside x)).1.size_ = v.size_ + 1 ∧
    (v.Insert fresh p (ValueRef.outside x)).2 = p ∧
    (v.Insert fresh p (ValueRef.outside x)).1.storage_[
      (v.Insert fresh p (ValueRef.outside x)).2]? = some x := by
  refine ⟨Insert_toList fresh v p x hinv hp, Insert_size fresh v p _, Insert_snd fresh v p _ hp,
    ?_⟩
  rw [Insert_snd fresh v p _ hp, Insert_getElem?_outside fresh v p x hinv hp]

theorem toList_length (v : SimpleVector α) (hinv : v.Inv) : v.toList.length = v.size_ := by
  have := hinv.1
  have := hinv.2
  simp only [toList, List.length_take]
  omega

theorem Insert_Inv (fresh : Nat → α) (v : SimpleVector α) (p : Nat) (x : ValueRef α)
    (hinv : v.Inv) :
    (v.Insert fresh p x).1.Inv := by
  refine ⟨?_, Insert_storage_length fresh v p x hinv.2⟩
  have := hinv.1
  rw [Insert_size, Insert_capacity]
  split <;> omega

theorem PushBack_size (fresh : Nat → α) (v : SimpleVector α) (x : ValueRef α) :
    (v.PushBack fresh x).size_ = v.size_ + 1 :=
  Insert_size fresh v v.size_ x

theorem PushBack_capacity (fresh : Nat → α) (v : SimpleVector α) (x : ValueRef α) :
    (v.PushBack fresh x).capacity_ =
      if v.size_ < v.capacity_ then v.capacity_ else max (v.capacity_ * 2) 1 :=
  Insert_capacity fresh v v.size_ x

theorem PushBack_Inv (fresh : Nat → α) (v : SimpleVector α) (x : ValueRef α) (hinv : v.Inv) :
    (v.PushBack fresh x).Inv :=
  Insert_Inv fresh v v.size_ x hinv

theorem PushBack_toList (fresh : Nat → α) (v : SimpleVector α) (x : α) (hinv : v.Inv) :
    (v.PushBack fresh (ValueRef.outside x)).toList = v.toList ++ [x] := by
  have hlen := toList_length v hinv
  have h := Insert_toList fresh v v.size_ x hinv (Nat.le_refl _)
  rw [show v.PushBack fresh (ValueRef.outside x) =
    (v.Insert fresh v.size_ (ValueRef.outside x)).1 from rfl, h]
  rw [List.take_of_length_le (by omega), List.drop_of_length_le (by omega)]

theorem Doubled_step (n cap : Nat) (h : Doubled n cap) (hle : n ≤ cap) :
    Doubled (n + 1) (if n < cap then cap else max (cap * 2) 1) := by
  refine ⟨fun h0 => absurd h0 (Nat.succ_ne_zero n), fun _ => ?_⟩
  by_cases hn : n = 0
  · have hc := h.1 hn
    subst hn
    subst hc
    exact ⟨0, by simp⟩
  · obtain ⟨k, hk, h1, h2⟩ := h.2 hn
    by_cases hlt : n < cap
    · rw [if_pos hlt]
      exact ⟨k, hk, by omega, by omega⟩
    · rw [if_neg hlt]
      have hmax : max (cap * 2) 1 = cap * 2 := by omega
      rw [hmax]
      exact ⟨k + 1, by rw [hk, pow_succ], by omega, by omega⟩

theorem Doubled_minimal (n cap : Nat) (h : Doubled n cap) (hn : n ≠ 0) :
    ∃ k, cap = 2 ^ k ∧ n ≤ 2 ^ k ∧ ∀ j, n ≤ 2 ^ j → 2 ^ k ≤ 2 ^ j := by
  obtain ⟨k, hk, h1, h2⟩ := h.2 hn
  refine ⟨k, hk, hk ▸ h1, fun j hj => ?_⟩
  by_contra hlt
  have hjk : j < k := by
    by_contra hge
    exact hlt (Nat.pow_le_pow_right (by decide) (Nat.le_of_not_lt hge))
  have h3 : 2 ^ (j + 1) ≤ 2 ^ k := Nat.pow_le_pow_right (by decide) hjk
  rw [pow_succ] at h3
  omega

theorem PushBack_foldl (fresh : Nat → α) (xs : List α) :
    (xs.foldl (fun w x => w.PushBack fresh (ValueRef.outside x)) ctor).Inv ∧
    (xs.foldl (fun w x => w.PushBack fresh (ValueRef.outside x)) ctor).size_ = xs.length ∧
    (xs.foldl (fun w x => w.PushBack fresh (ValueRef.outside x)) ctor).toList = xs ∧
    Doubled xs.length (xs.foldl (fun w x => w.PushBack fresh (ValueRef.outside x)) ctor).capacity_ := by
  induction xs using List.reverseRecOn with
  | nil =>
    refine ⟨⟨Nat.le_refl _, rfl⟩, rfl, rfl, fun _ => rfl, fun h => absurd rfl h⟩
  | append_singleton ys y ih =>
    obtain ⟨hinv, hsz, hl, hd⟩ := ih
    rw [List.foldl_concat]
    refine ⟨PushBack_Inv fresh _ _ hinv, ?_, ?_, ?_⟩
    · rw [PushBack_size, hsz, List.length_append, List.length_singleton]
    · rw [PushBack_toList fresh _ y hinv, hl]
    · rw [PushBack_capacity, List.length_append, List.length_singleton, hsz]
      exact Doubled_step _ _ hd (hsz ▸ hinv.1)

theorem Erase_getElem? (v : SimpleVector α) (p : Nat) (hinv : v.Inv) (hp : p < v.size_)
    (i : Nat) :
    (v.Erase p).1.storage_[i]? =
      if p ≤ i ∧ i + 1 < v.size_ then v.storage_[i + 1]? else v.storage_[i]? := by
  obtain ⟨hsz, hbuf⟩ := hinv
  unfold Erase std_move_within «end»
  simp only []
  rw [std_move_within_loop_getElem? _ _ _ _ (by omega) (by omega)]
  by_cases hc : p ≤ i ∧ i + 1 < v.size_
  · have h1 : p ≤ i ∧ i < p + (v.size_ - (p + 1)) := by omega
    have h2 : p + 1 + (i - p) = i + 1 := by omega
    simp only [if_pos hc, if_pos h1, h2]
  · have h1 : ¬ (p ≤ i ∧ i < p + (v.size_ - (p + 1))) := by omega
    simp only [if_neg hc, if_neg h1]

theorem Erase_storage_length (v : SimpleVector α) (p : Nat) :
    (v.Erase p).1.storage_.length = v.storage_.length := by
  unfold Erase std_move_within
  exact std_move_within_loop_length _ _ _ _

theorem Erase_toList (v : SimpleVector α) (p : Nat) (hinv : v.Inv) (hp : p < v.size_) :
    (v.Erase p).1.toList = v.toList.eraseIdx p := by
  apply List.ext_getElem?
  intro i
  rw [List.getElem?_eraseIdx]
  simp only [toList, List.getElem?_take]
  rw [show (v.Erase p).1.size_ = v.size_ - 1 from rfl, Erase_getElem? v p hinv hp]
  by_cases h1 : i < p
  · have h2 : i < v.size_ - 1 := by omega
    have h3 : ¬ (p ≤ i ∧ i + 1 < v.size_) := by omega
    have h4 : i < v.size_ := by omega
    simp only [if_pos h1, if_pos h2, if_neg h3, if_pos h4]
  · by_cases h2 : i + 1 < v.size_
    · have h3 : i < v.size_ - 1 := by omega
      have h4 : p ≤ i ∧ i + 1 < v.size_ := by omega
      simp only [if_neg h1, if_pos h2, if_pos h3, if_pos h4]
    · have h3 : ¬ i < v.size_ - 1 := by omega
      simp only [if_neg h1, if_neg h2, if_neg h3]

theorem Erase_Inv (v : SimpleVector α) (p : Nat) (hinv : v.Inv) : (v.Erase p).1.Inv := by
  refine ⟨?_, ?_⟩
  · have := hinv.1
    show v.size_ - 1 ≤ v.capacity_
    omega
  · rw [Erase_storage_length]
    exact hinv.2

theorem ctor_Inv {α : Type} : (ctor : SimpleVector α).Inv := ⟨Nat.le_refl _, rfl⟩

theorem scenario_trace (fr : Nat → Nat) :
    ((((ctor.PushBack fr (ValueRef.outside 1)).PushBack fr (ValueRef.outside 2)).PushBack fr (ValueRef.outside 3)).size_ = 3 ∧
     (((ctor.PushBack fr (ValueRef.outside 1)).PushBack fr (ValueRef.outside 2)).PushBack fr (ValueRef.outside 3)).capacity_ = 4 ∧
     (((ctor.PushBack fr (ValueRef.outside 1)).PushBack fr (ValueRef.outside 2)).PushBack fr (ValueRef.outside 3)).toList = [1, 2, 3]) ∧
    (((((ctor.PushBack fr (ValueRef.outside 1)).PushBack fr (ValueRef.outside 2)).PushBack fr (ValueRef.outside 3)).Insert fr 1 (ValueRef.outside 9)).1.toList
        = [1, 9, 2, 3] ∧
     ((((ctor.PushBack fr (ValueRef.outside 1)).PushBack fr (ValueRef.outside 2)).PushBack fr (ValueRef.outside 3)).Insert fr 1 (ValueRef.outside 9)).1.size_
        = 4 ∧
     ((((ctor.PushBack fr (ValueRef.outside 1)).PushBack fr (ValueRef.outside 2)).PushBack fr (ValueRef.outside 3)).Insert fr 1 (ValueRef.outside 9)).1.capacity_
        = 4) ∧
    ((((((ctor.PushBack fr (ValueRef.outside 1)).PushBack fr (ValueRef.outside 2)).PushBack fr (ValueRef.outside 3)).Insert fr 1
        (ValueRef.outside 9)).1.PushBack fr (ValueRef.outside 4)).capacity_ = 8 ∧
     (((((ctor.PushBack fr (ValueRef.outside 1)).PushBack fr (ValueRef.outside 2)).PushBack fr (ValueRef.outside 3)).Insert fr 1
        (ValueRef.outside 9)).1.PushBack fr (ValueRef.outside 4)).toList = [1, 9, 2, 3, 4]) ∧
    (((((((ctor.PushBack fr (ValueRef.outside 1)).PushBack fr (ValueRef.outside 2)).PushBack fr (ValueRef.outside 3)).Insert fr 1
        (ValueRef.outside 9)).1.PushBack fr (ValueRef.outside 4)).Erase 0).1.toList = [9, 2, 3, 4] ∧
     ((((((ctor.PushBack fr (ValueRef.outside 1)).PushBack fr (ValueRef.outside 2)).PushBack fr (ValueRef.outside 3)).Insert fr 1
        (ValueRef.outside 9)).1.PushBack fr (ValueRef.outside 4)).Erase 0).1.size_ = 4) := by
  have i0 : (ctor : SimpleVector Nat).Inv := ctor_Inv
  have i1 := PushBack_Inv fr _ (ValueRef.outside 1) i0
  have i2 := PushBack_Inv fr _ (ValueRef.outside 2) i1
  have i3 := PushBack_Inv fr _ (ValueRef.outside 3) i2
  have i4 := Insert_Inv fr _ 1 (ValueRef.outside 9) i3
  have i5 := PushBack_Inv fr _ (ValueRef.outside 4) i4
  have s3 : (((ctor.PushBack fr (ValueRef.outside 1)).PushBack fr (ValueRef.outside 2)).PushBack fr (ValueRef.outside 3)).size_ = 3 := by
    simp [PushBack_size, ctor]
  have c3 : (((ctor.PushBack fr (ValueRef.outside 1)).PushBack fr (ValueRef.outside 2)).PushBack fr (ValueRef.outside 3)).capacity_ = 4 := by
    simp [PushBack_size, PushBack_capacity, ctor]
  have l3 : (((ctor.PushBack fr (ValueRef.outside 1)).PushBack fr (ValueRef.outside 2)).PushBack fr (ValueRef.outside 3)).toList = [1, 2, 3] := by
    rw [PushBack_toList fr _ 3 i2, PushBack_toList fr _ 2 i1, PushBack_toList fr _ 1 i0]
    rfl
  have l4 := Insert_toList fr _ 1 9 i3 (by omega)
  rw [l3] at l4
  have s4 := Insert_size fr (((ctor.PushBack fr (ValueRef.outside 1)).PushBack fr (ValueRef.outside 2)).PushBack fr (ValueRef.outside 3)) 1
    (ValueRef.outside 9)
  have c4 := Insert_capacity fr (((ctor.PushBack fr (ValueRef.outside 1)).PushBack fr (ValueRef.outside 2)).PushBack fr (ValueRef.outside 3)) 1
    (ValueRef.outside 9)
  rw [s3, c3] at c4
  rw [s3] at s4
  have l5 := PushBack_toList fr _ 4 i4
  rw [l4] at l5
  have s5 := PushBack_size fr ((((ctor.PushBack fr (ValueRef.outside 1)).PushBack fr
    (ValueRef.outside 2)).PushBack fr (ValueRef.outside 3)).Insert
    fr 1 (ValueRef.outside 9)).1 (ValueRef.outside 4)
  have c5 := PushBack_capacity fr ((((ctor.PushBack fr (ValueRef.outside 1)).PushBack fr
    (ValueRef.outside 2)).PushBack fr (ValueRef.outside 3)).Insert
    fr 1 (ValueRef.outside 9)).1 (ValueRef.outside 4)
  rw [s4, c4] at c5
  rw [s4] at s5
  have l6 := Erase_toList _ 0 i5 (by omega)
  rw [l5] at l6
  exact ⟨⟨s3, c3, l3⟩, ⟨l4, s4, c4⟩, ⟨c5, l5⟩, l6, by rw [show ∀ w : SimpleVector Nat,
    (w.Erase 0).1.size_ = w.size_ - 1 from fun _ => rfl, s5]⟩

theorem std_equal_loop_iff [BEq α] (b1 b2 : ArrayPtr α) (n i j : Nat) :
    std_equal_loop b1 b2 n i j = true ↔
      ∀ k, k < n → ∃ x y, b1[i + k]? = some x ∧ b2[j + k]? = some y ∧ (x == y) = true := by
  induction n generalizing i j with
  | zero => simp [std_equal_loop]
  | succ n ih =>
    rw [std_equal_loop]
    constructor
    · intro h k hk
      cases h1 : b1[i]? with
      | none => simp [h1] at h
      | some x =>
        cases h2 : b2[j]? with
        | none => simp [h1, h2] at h
        | some y =>
          simp only [h1, h2] at h
          by_cases hxy : (x == y) = true
          · rw [if_pos hxy, ih] at h
            cases k with
            | zero => exact ⟨x, y, h1, h2, hxy⟩
            | succ k =>
              obtain ⟨x', y', e1, e2, e3⟩ := h k (by omega)
              refine ⟨x', y', ?_, ?_, e3⟩
              · rw [← e1]; congr 1; omega
              · rw [← e2]; congr 1; omega
          · rw [if_neg hxy] at h
            exact absurd h (by decide)
    · intro h
      obtain ⟨x, y, h1, h2, hxy⟩ := h 0 (by omega)
      rw [Nat.add_zero] at h1 h2
      simp only [h1, h2, if_pos hxy]
      rw [ih]
      intro k hk
      obtain ⟨x', y', e1, e2, e3⟩ := h (k + 1) (by omega)
      refine ⟨x', y', ?_, ?_, e3⟩
      · rw [← e1]; congr 1; omega
      · rw [← e2]; congr 1; omega

theorem eq_of_toList_eq [BEq α] [ReflBEq α] (a b : SimpleVector α) (ha : a.Inv) (hb : b.Inv)
    (h : a.toList = b.toList) : eq a b = true := by
  have hsz : a.size_ = b.size_ := by
    rw [← toList_length a ha, ← toList_length b hb, h]
  unfold eq std_equal «end» begin
  rw [if_neg (by simp [hsz])]
  rw [std_equal_loop_iff]
  intro k hk
  have hk' : k < a.size_ := by omega
  have hka : k < a.storage_.length := by have := ha.1; have := ha.2; omega
  have e : a.storage_[0 + k]? = b.storage_[0 + k]? := by
    have h1 : a.toList[k]? = b.toList[k]? := by rw [h]
    simp only [toList, List.getElem?_take, if_pos hk', if_pos (hsz ▸ hk')] at h1
    simpa using h1
  refine ⟨a.storage_[k], a.storage_[k], ?_, ?_, ReflBEq.refl⟩
  · simp [List.getElem?_eq_getElem hka]
  · rw [← e]
    simp [List.getElem?_eq_getElem hka]

theorem Reserve_Inv (fresh : Nat → α) (v : SimpleVector α) (c : Nat) (hinv : v.Inv) :
    (v.Reserve fresh c).Inv := by
  unfold Reserve
  split
  · next h =>
    refine ⟨?_, ?_⟩
    · have := hinv.1
      show v.size_ ≤ c
      omega
    · show (std_move v.storage_ v.begin v.end (ArrayPtr.alloc fresh c) 0).1.length = c
      unfold std_move
      rw [std_move_loop_length, alloc_length]
  · exact hinv

theorem Resize_Inv [Inhabited α] (fresh : Nat → α) (v : SimpleVector α) (n : Nat)
    (hinv : v.Inv) : (v.Resize fresh n).Inv := by
  obtain ⟨hsz, hbuf⟩ := hinv
  unfold Resize
  split
  · next h => exact ⟨by show n ≤ v.capacity_; omega, hbuf⟩
  · split
    · next h1 h2 =>
      refine ⟨h2.1, ?_⟩
      show (std_generate _ _ _ _).length = v.capacity_
      unfold std_generate
      rw [std_generate_loop_length, hbuf]
    · next h1 h2 =>
      have hR := Reserve_Inv fresh v (max n (v.capacity_ * 2)) ⟨hsz, hbuf⟩
      have hc : (v.Reserve fresh (max n (v.capacity_ * 2))).capacity_ = max n (v.capacity_ * 2) := by
        unfold Reserve
        rw [if_pos (by omega)]
      refine ⟨?_, ?_⟩
      · show n ≤ (v.Reserve fresh (max n (v.capacity_ * 2))).capacity_
        rw [hc]
        omega
      · show (std_generate _ _ _ _).length = (v.Reserve fresh (max n (v.capacity_ * 2))).capacity_
        unfold std_generate
        rw [std_generate_loop_length, hR.2]

theorem ctorFill_Inv (fresh : Nat → α) (n : Nat) (x : α) : (ctorFill fresh n x).Inv := by
  unfold ctorFill
  split
  · refine ⟨Nat.le_refl _, ?_⟩
    show (std_fill _ _ _ _).length = n
    unfold std_fill
    rw [std_generate_loop_length, alloc_length]
  · exact ⟨Nat.le_refl _, alloc_length fresh n⟩

theorem ctorSize_Inv [Inhabited α] (fresh : Nat → α) (n : Nat) : (ctorSize fresh n).Inv :=
  ctorFill_Inv fresh n default

theorem ctorInit_Inv (fresh : Nat → α) (init : List α) : (ctorInit fresh init).Inv := by
  unfold ctorInit
  split
  · refine ⟨Nat.le_refl _, ?_⟩
    show (std_copy _ _ _ _ _).1.length = init.length
    unfold std_copy
    rw [std_move_loop_length, alloc_length]
  · next h =>
    refine ⟨Nat.le_refl _, ?_⟩
    show ([] : List α).length = init.length
    simp only [ne_eq, Decidable.not_not] at h
    rw [h]
    rfl

theorem ctorCopy_loop_eq (fresh : Nat → α) (other : SimpleVector α) (n it : Nat)
    (tmp : SimpleVector α) (h : it + n ≤ other.storage_.length) :
    ctorCopy_loop fresh other n it tmp =
      ((other.storage_.drop it).take n).foldl
        (fun w x => w.PushBack fresh (ValueRef.outside x)) tmp := by
  induction n generalizing it tmp with
  | zero => simp [ctorCopy_loop]
  | succ n ih =>
    have hit : it < other.storage_.length := by omega
    rw [ctorCopy_loop, List.getElem?_eq_getElem hit]
    simp only []
    rw [ih (it + 1) _ (by omega), List.drop_eq_getElem_cons hit, List.take_succ_cons,
      List.foldl_cons]

theorem ctorCopy_fst (fresh : Nat → α) (s : SimpleVector α) (hinv : s.Inv) :
    (ctorCopy fresh s).1 =
      s.toList.foldl (fun w x => w.PushBack fresh (ValueRef.outside x)) ctor := by
  have h1 := hinv.1
  have h2 := hinv.2
  unfold ctorCopy swap ArrayPtr.swap std_swap «end» begin
  simp only [Nat.sub_zero]
  rw [ctorCopy_loop_eq fresh s s.size_ 0 ctor (by omega)]
  rfl

theorem ctorCopy_spec (fresh : Nat → α) (s : SimpleVector α) (hinv : s.Inv) :
    (ctorCopy fresh s).1.Inv ∧ (ctorCopy fresh s).1.size_ = s.size_ ∧
    (ctorCopy fresh s).1.toList = s.toList ∧
    Doubled s.size_ (ctorCopy fresh s).1.capacity_ := by
  rw [ctorCopy_fst fresh s hinv]
  obtain ⟨h1, h2, h3, h4⟩ := PushBack_foldl fresh s.toList
  rw [toList_length s hinv] at h2 h4
  exact ⟨h1, h2, h3, h4⟩

theorem index_eq_of_toList_eq (a b : SimpleVector α) (h : a.toList = b.toList)
    (hsz : a.size_ = b.size_) (i : Nat) (hi : i < b.size_) : a.index i = b.index i := by
  have h1 : a.toList[i]? = b.toList[i]? := by rw [h]
  simpa only [toList, List.getElem?_take, if_pos hi, if_pos (hsz ▸ hi)] using h1

theorem setIndex_index (v : SimpleVector α) (i : Nat) (y : α) (hi : i < v.storage_.length) :
    (v.setIndex i y).index i = some y := by
  simp [setIndex, index, List.getElem?_set, hi]

theorem ctorInit_storage (fresh : Nat → α) (init : List α) :
    (ctorInit fresh init).storage_ = init := by
  unfold ctorInit
  split
  · show (std_copy init 0 init.length (ArrayPtr.alloc fresh init.length) 0).1 = init
    unfold std_copy
    apply List.ext_getElem?
    intro i
    rw [std_move_loop_getElem? _ _ _ _ _ (by omega), alloc_length]
    by_cases hi : i < init.length
    · rw [if_pos (by omega)]
      simp
    · rw [if_neg (by omega), List.getElem?_eq_none (by rw [alloc_length]; omega),
        List.getElem?_eq_none (by omega)]
  · next h =>
    simp only [ne_eq, Decidable.not_not] at h
    show ([] : List α) = init
    exact (List.eq_nil_of_length_eq_zero h).symm

theorem swap_fst (a b : SimpleVector α) : (swap a b).1 = b := rfl

theorem swap_snd (a b : SimpleVector α) : (swap a b).2 = a := rfl

end SimpleVector

/-! ## The claims -/

/-- C1: the claim (after `Insert(p, x)` the visible sequence is the first `p` elements,
then `x`, then the rest) fails in the code when `x` is passed as a reference to an
element of the vector itself, because `Insert` reads the reference only after
`PrepareArrayForInsertion`. On `v = [1, 2, 3]` with capacity 4, as three calls of
`PushBack` on the empty vector build it, `v.Insert(v.begin(), v[1])` is called with
`x = 2`; the shift moves the 1 into slot 1, the read through the reference gives 1, and
the result is `[1, 1, 2, 3]`, not `[2, 1, 2, 3]`. On the full vector `[1, 2, 3]` of
capacity 3 the same call reads a slot of the released buffer. -/
theorem C1_Insert_reads_reference_after_shift :
    ((((SimpleVector.ctor.PushBack (fun _ => 0) (ValueRef.outside 1)).PushBack (fun _ => 0)
        (ValueRef.outside 2)).PushBack (fun _ => 0) (ValueRef.outside 3)).toList = [1, 2, 3] ∧
      (((SimpleVector.ctor.PushBack (fun _ => 0) (ValueRef.outside 1)).PushBack (fun _ => 0)
        (ValueRef.outside 2)).PushBack (fun _ => 0) (ValueRef.outside 3)).capacity_ = 4 ∧
      (((SimpleVector.ctor.PushBack (fun _ => 0) (ValueRef.outside 1)).PushBack (fun _ => 0)
        (ValueRef.outside 2)).PushBack (fun _ => 0) (ValueRef.outside 3)).Inv ∧
      (((SimpleVector.ctor.PushBack (fun _ => 0) (ValueRef.outside 1)).PushBack (fun _ => 0)
        (ValueRef.outside 2)).PushBack (fun _ => 0) (ValueRef.outside 3)).index 1 = some 2) ∧
    (((((SimpleVector.ctor.PushBack (fun _ => 0) (ValueRef.outside 1)).PushBack (fun _ => 0)
        (ValueRef.outside 2)).PushBack (fun _ => 0) (ValueRef.outside 3)).Insert (fun _ => 0) 0
        (ValueRef.slot 1)).1.toList = [1, 1, 2, 3] ∧
      ¬ ((((SimpleVector.ctor.PushBack (fun _ => 0) (ValueRef.outside 1)).PushBack (fun _ => 0)
        (ValueRef.outside 2)).PushBack (fun _ => 0) (ValueRef.outside 3)).Insert (fun _ => 0) 0
        (ValueRef.slot 1)).1.toList = [1, 2, 3].take 0 ++ 2 :: [1, 2, 3].drop 0) ∧
    ((⟨[1, 2, 3], 3, 3⟩ : SimpleVector Nat).Inv ∧
      (⟨[1, 2, 3], 3, 3⟩ : SimpleVector Nat).index 1 = some 2 ∧
      SimpleVector.readValue (⟨[1, 2, 3], 3, 3⟩ : SimpleVector Nat)
        ((⟨[1, 2, 3], 3, 3⟩ : SimpleVector Nat).PrepareArrayForInsertion (fun _ => 0) 0).1
        (ValueRef.slot 1) = none) := by
  decide

/-- C2: `Insert(p, x)` (at any position) and `PushBack(x)`, for `x` any object outside
the buffer or any slot of it, set the capacity to `max(capacity_ * 2, 1)` when the
vector is full (`size_ = capacity_`) and leave it unchanged when `size_ < capacity_`. The scenario, for any content of fresh slots:
from the empty vector, `PushBack` of 1, 2, 3 gives size 3, capacity 4 and `[1, 2, 3]`;
`Insert(1, 9)` gives `[1, 9, 2, 3]`, size 4, capacity 4; `PushBack(4)` gives capacity 8
and `[1, 9, 2, 3, 4]`; `Erase(0)` gives `[9, 2, 3, 4]` and size 4. -/
theorem C2_growth_policy {α : Type} (fresh : Nat → α) (v : SimpleVector α) (p : Nat)
    (x : ValueRef α) :
    (v.size_ = v.capacity_ →
      (v.Insert fresh p x).1.capacity_ = max (v.capacity_ * 2) 1 ∧
      (v.PushBack fresh x).capacity_ = max (v.capacity_ * 2) 1) ∧
    (v.size_ < v.capacity_ →
      (v.Insert fresh p x).1.capacity_ = v.capacity_ ∧
      (v.PushBack fresh x).capacity_ = v.capacity_) ∧
    (∀ fr : Nat → Nat,
      ((((SimpleVector.ctor.PushBack fr (ValueRef.outside 1)).PushBack fr (ValueRef.outside 2)).PushBack fr (ValueRef.outside 3)).size_ = 3 ∧
       (((SimpleVector.ctor.PushBack fr (ValueRef.outside 1)).PushBack fr (ValueRef.outside 2)).PushBack fr (ValueRef.outside 3)).capacity_ = 4 ∧
       (((SimpleVector.ctor.PushBack fr (ValueRef.outside 1)).PushBack fr (ValueRef.outside 2)).PushBack fr (ValueRef.outside 3)).toList = [1, 2, 3]) ∧
      (((((SimpleVector.ctor.PushBack fr (ValueRef.outside 1)).PushBack fr (ValueRef.outside 2)).PushBack fr (ValueRef.outside 3)).Insert fr 1 (ValueRef.outside 9)).1.toList
          = [1, 9, 2, 3] ∧
       ((((SimpleVector.ctor.PushBack fr (ValueRef.outside 1)).PushBack fr (ValueRef.outside 2)).PushBack fr (ValueRef.outside 3)).Insert fr 1 (ValueRef.outside 9)).1.size_
          = 4 ∧
       ((((SimpleVector.ctor.PushBack fr (ValueRef.outside 1)).PushBack fr (ValueRef.outside 2)).PushBack fr (ValueRef.outside 3)).Insert fr 1 (ValueRef.outside 9)).1.capacity_
          = 4) ∧
      ((((((SimpleVector.ctor.PushBack fr (ValueRef.outside 1)).PushBack fr (ValueRef.outside 2)).PushBack fr (ValueRef.outside 3)).Insert fr 1
          (ValueRef.outside 9)).1.PushBack fr (ValueRef.outside 4)).capacity_ = 8 ∧
       (((((SimpleVector.ctor.PushBack fr (ValueRef.outside 1)).PushBack fr (ValueRef.outside 2)).PushBack fr (ValueRef.outside 3)).Insert fr 1
          (ValueRef.outside 9)).1.PushBack fr (ValueRef.outside 4)).toList = [1, 9, 2, 3, 4]) ∧
      (((((((SimpleVector.ctor.PushBack fr (ValueRef.outside 1)).PushBack fr (ValueRef.outside 2)).PushBack fr (ValueRef.outside 3)).Insert fr 1
          (ValueRef.outside 9)).1.PushBack fr (ValueRef.outside 4)).Erase 0).1.toList = [9, 2, 3, 4] ∧
       ((((((SimpleVector.ctor.PushBack fr (ValueRef.outside 1)).PushBack fr (ValueRef.outside 2)).PushBack fr (ValueRef.outside 3)).Insert fr 1
          (ValueRef.outside 9)).1.PushBack fr (ValueRef.outside 4)).Erase 0).1.size_ = 4)) := by
  refine ⟨fun hfull => ?_, fun hroom => ?_, fun fr => ?_⟩
  · rw [SimpleVector.PushBack_capacity, SimpleVector.Insert_capacity,
      if_neg (by omega : ¬ v.size_ < v.capacity_)]
    exact ⟨rfl, rfl⟩
  · rw [SimpleVector.PushBack_capacity, SimpleVector.Insert_capacity, if_pos hroom]
    exact ⟨rfl, rfl⟩
  · exact SimpleVector.scenario_trace fr

/-- C2 at concrete inputs: the full vector `[1, 2]` of capacity 2 grows to capacity 4,
the empty vector of capacity 0 grows to capacity 1, and `[1, 2, 3]` of capacity 4 keeps
its capacity. -/
theorem C2_growth_policy_witness :
    ((⟨[1, 2], 2, 2⟩ : SimpleVector Nat).Insert (fun _ => 0) 1 (ValueRef.outside 9)).1.capacity_ = 4 ∧
    ((⟨[], 0, 0⟩ : SimpleVector Nat).PushBack (fun _ => 0) (ValueRef.outside 9)).capacity_ = 1 ∧
    ((⟨[1, 2, 3, 0], 3, 4⟩ : SimpleVector Nat).Insert (fun _ => 0) 1 (ValueRef.outside 9)).1.capacity_ = 4 :=
  ⟨((C2_growth_policy (fun _ => 0) ⟨[1, 2], 2, 2⟩ 1 (ValueRef.outside 9)).1 rfl).1,
    ((C2_growth_policy (fun _ => 0) ⟨[], 0, 0⟩ 0 (ValueRef.outside 9)).1 rfl).2,
    ((C2_growth_policy (fun _ => 0) ⟨[1, 2, 3, 0], 3, 4⟩ 1 (ValueRef.outside 9)).2.1 (by decide)).1⟩

/-- C3: starting from the default-constructed vector and calling `PushBack` on each
value of a list `xs` in turn (the values are objects outside the vector) gives size `xs.length`, the visible sequence `xs`, and a
capacity that is `0` when `xs` is empty and otherwise the smallest power of two that is
at least `xs.length`; in particular `size_ ≤ capacity_`. -/
theorem C3_PushBack_from_empty {α : Type} (fresh : Nat → α) (xs : List α) :
    (xs.foldl (fun w x => w.PushBack fresh (ValueRef.outside x)) SimpleVector.ctor).size_ = xs.length ∧
    (xs.foldl (fun w x => w.PushBack fresh (ValueRef.outside x)) SimpleVector.ctor).toList = xs ∧
    (xs.length = 0 → (xs.foldl (fun w x => w.PushBack fresh (ValueRef.outside x)) SimpleVector.ctor).capacity_ = 0) ∧
    (xs.length ≠ 0 → ∃ k,
      (xs.foldl (fun w x => w.PushBack fresh (ValueRef.outside x)) SimpleVector.ctor).capacity_ = 2 ^ k ∧
      xs.length ≤ 2 ^ k ∧ ∀ j, xs.length ≤ 2 ^ j → 2 ^ k ≤ 2 ^ j) ∧
    (xs.foldl (fun w x => w.PushBack fresh (ValueRef.outside x)) SimpleVector.ctor).size_ ≤
      (xs.foldl (fun w x => w.PushBack fresh (ValueRef.outside x)) SimpleVector.ctor).capacity_ := by
  obtain ⟨hinv, hsz, hl, hd⟩ := SimpleVector.PushBack_foldl fresh xs
  exact ⟨hsz, hl, hd.1, SimpleVector.Doubled_minimal _ _ hd, hinv.1⟩

/-- C3 at concrete inputs: five calls of `PushBack` from the empty vector; the capacity
reached is 8, and no call from the empty list leaves capacity 0. -/
theorem C3_PushBack_from_empty_witness :
    ([10, 20, 30, 40, 50].foldl
      (fun w x => w.PushBack (fun _ => 0) (ValueRef.outside x)) SimpleVector.ctor).size_
      = 5 ∧
    ([10, 20, 30, 40, 50].foldl
      (fun w x => w.PushBack (fun _ => 0) (ValueRef.outside x)) SimpleVector.ctor).toList
      = [10, 20, 30, 40, 50] ∧
    ([10, 20, 30, 40, 50].foldl
      (fun w x => w.PushBack (fun _ => 0) (ValueRef.outside x)) SimpleVector.ctor).capacity_
      = 8 ∧
    (([] : List Nat).foldl
      (fun w x => w.PushBack (fun _ => 0) (ValueRef.outside x)) SimpleVector.ctor).capacity_
      = 0 :=
  ⟨(C3_PushBack_from_empty (fun _ => 0) [10, 20, 30, 40, 50]).1,
    (C3_PushBack_from_empty (fun _ => 0) [10, 20, 30, 40, 50]).2.1,
    by decide,
    (C3_PushBack_from_empty (fun _ => 0) ([] : List Nat)).2.2.1 rfl⟩

/-- C4: for a vector with `size_ ≤ capacity_` and a position `p < size_`, `Erase(p)`
gives the visible sequence without its element at `p` (the others in order), the size
`size_ - 1` and the same capacity, and returns the iterator at offset `p`; that slot
now shows the element that followed the erased one, and the iterator is `end()` when
the erased element was the last. -/
theorem C4_Erase_sequence {α : Type} (v : SimpleVector α) (p : Nat)
    (hinv : v.Inv) (hp : p < v.size_) :
    (v.Erase p).1.toList = v.toList.eraseIdx p ∧
    (v.Erase p).1.size_ = v.size_ - 1 ∧
    (v.Erase p).1.capacity_ = v.capacity_ ∧
    (v.Erase p).2 = p ∧
    (v.Erase p).1.toList[(v.Erase p).2]? = v.toList[p + 1]? ∧
    (p + 1 = v.size_ → (v.Erase p).2 = (v.Erase p).1.end) := by
  refine ⟨SimpleVector.Erase_toList v p hinv hp, rfl, rfl, rfl, ?_, fun h => ?_⟩
  · rw [SimpleVector.Erase_toList v p hinv hp, List.getElem?_eraseIdx]
    simp [SimpleVector.Erase]
  · show p = v.size_ - 1
    omega

/-- C4 at concrete inputs: `Erase(1)` on `[1, 2, 3]` in a buffer of four slots. -/
theorem C4_Erase_sequence_witness :
    (⟨[1, 2, 3, 0], 3, 4⟩ : SimpleVector Nat).Inv ∧ 1 < 3 ∧
    ((⟨[1, 2, 3, 0], 3, 4⟩ : SimpleVector Nat).Erase 1).1.toList = [1, 2, 3].eraseIdx 1 ∧
    ((⟨[1, 2, 3, 0], 3, 4⟩ : SimpleVector Nat).Erase 1).1.capacity_ = 4 :=
  ⟨by decide, by decide,
    (C4_Erase_sequence ⟨[1, 2, 3, 0], 3, 4⟩ 1 (by decide) (by decide)).1,
    (C4_Erase_sequence ⟨[1, 2, 3, 0], 3, 4⟩ 1 (by decide) (by decide)).2.2.1⟩

/-- C6: the invariant `Inv` (`size_ ≤ capacity_`, the buffer has `capacity_` slots, so
the visible elements are its first `size_` slots) holds after every constructor
(default, sized, sized with a value, from a literal list, copy, move, reserving) and is
preserved by `Reserve`, `PushBack`, `Insert` at `p ≤ size_`, `Erase` at `p < size_`,
`PopBack` on a non-empty vector (which does not fail), `Resize`, `Clear`, `swap`, copy
assignment and move assignment, for both objects where two are involved. -/
theorem C6_invariant {α : Type} [Inhabited α] (fresh : Nat → α) :
    (SimpleVector.ctor : SimpleVector α).Inv ∧
    (∀ n, (SimpleVector.ctorSize fresh n).Inv) ∧
    (∀ n x, (SimpleVector.ctorFill fresh n x).Inv) ∧
    (∀ init, (SimpleVector.ctorInit fresh init).Inv) ∧
    (∀ s : SimpleVector α, s.Inv →
      (SimpleVector.ctorCopy fresh s).1.Inv ∧ (SimpleVector.ctorCopy fresh s).2.Inv) ∧
    (∀ s : SimpleVector α, s.Inv →
      (SimpleVector.ctorMove s).1.Inv ∧ (SimpleVector.ctorMove s).2.Inv) ∧
    (∀ object, (SimpleVector.ctorReserve fresh object).Inv) ∧
    (∀ v : SimpleVector α, v.Inv →
      (∀ c, (v.Reserve fresh c).Inv) ∧
      (∀ x, (v.PushBack fresh x).Inv) ∧
      (∀ p x, p ≤ v.size_ → (v.Insert fresh p x).1.Inv) ∧
      (∀ p, p < v.size_ → (v.Erase p).1.Inv) ∧
      (0 < v.size_ → ∃ w, v.PopBack = some w ∧ w.Inv) ∧
      (∀ n, (v.Resize fresh n).Inv) ∧
      v.Clear.Inv ∧
      (∀ w : SimpleVector α, w.Inv →
        ((v.swap w).1.Inv ∧ (v.swap w).2.Inv) ∧
        ((v.assignCopy fresh w).1.Inv ∧ (v.assignCopy fresh w).2.Inv) ∧
        ((v.assignMove w).1.Inv ∧ (v.assignMove w).2.Inv))) := by
  refine ⟨SimpleVector.ctor_Inv, SimpleVector.ctorSize_Inv fresh, SimpleVector.ctorFill_Inv fresh,
    SimpleVector.ctorInit_Inv fresh, fun s hs => ⟨(SimpleVector.ctorCopy_spec fresh s hs).1, hs⟩,
    fun s hs => ⟨hs, SimpleVector.ctor_Inv⟩,
    fun object => SimpleVector.Reserve_Inv fresh _ _ SimpleVector.ctor_Inv, fun v hv => ?_⟩
  refine ⟨fun c => SimpleVector.Reserve_Inv fresh v c hv,
    fun x => SimpleVector.PushBack_Inv fresh v x hv,
    fun p x _ => SimpleVector.Insert_Inv fresh v p x hv,
    fun p _ => SimpleVector.Erase_Inv v p hv, fun hpos => ?_,
    fun n => SimpleVector.Resize_Inv fresh v n hv, ⟨Nat.zero_le _, hv.2⟩, fun w hw => ?_⟩
  · refine ⟨_, if_pos hpos, ?_, hv.2⟩
    have := hv.1
    show v.size_ - 1 ≤ v.capacity_
    omega
  · exact ⟨⟨hw, hv⟩, ⟨(SimpleVector.ctorCopy_spec fresh w hw).1, hw⟩, hw, hv⟩

/-- C6 at concrete inputs: the invariant after `Insert(1, 9)` into the full vector
`[1, 2, 3]`, after `Resize(10)` of it, and after copying it. -/
theorem C6_invariant_witness :
    (⟨[1, 2, 3], 3, 3⟩ : SimpleVector Nat).Inv ∧ 1 ≤ 3 ∧
    ((⟨[1, 2, 3], 3, 3⟩ : SimpleVector Nat).Insert (fun _ => 0) 1 (ValueRef.outside 9)).1.Inv ∧
    ((⟨[1, 2, 3], 3, 3⟩ : SimpleVector Nat).Resize (fun _ => 0) 10).Inv ∧
    (SimpleVector.ctorCopy (fun _ => 0) (⟨[1, 2, 3], 3, 3⟩ : SimpleVector Nat)).1.Inv :=
  ⟨by decide, by decide,
    ((C6_invariant (fun _ => 0)).2.2.2.2.2.2.2 ⟨[1, 2, 3], 3, 3⟩ (by decide)).2.2.1 1
      (ValueRef.outside 9) (by decide),
    ((C6_invariant (fun _ => 0)).2.2.2.2.2.2.2 ⟨[1, 2, 3], 3, 3⟩ (by decide)).2.2.2.2.2.1 10,
    ((C6_invariant (fun _ => 0)).2.2.2.2.1 ⟨[1, 2, 3], 3, 3⟩ (by decide)).1⟩

/-- C7: for a source `s` with `size_ ≤ capacity_`, the copy-constructed vector and the
target `t` of a copy assignment from `s` have the size of `s`, the same element at every
position below it, compare equal to `s` under `operator==` (the element comparison being
reflexive), and `s` is returned unchanged; a write to an element of the copy is seen in
the copy and leaves `s` as it was. The scenario: `s` built from `[5, 6, 7]`, `c` its
copy, `c[0] = 99`; then `s[0]` is 5 and `c[0]` is 99. -/
theorem C7_copy_equal_independent {α : Type} [BEq α] [ReflBEq α] (fresh : Nat → α)
    (s t : SimpleVector α) (hs : s.Inv) :
    ((SimpleVector.ctorCopy fresh s).1.size_ = s.size_ ∧
      (SimpleVector.ctorCopy fresh s).1.toList = s.toList ∧
      (∀ i, i < s.size_ → (SimpleVector.ctorCopy fresh s).1.index i = s.index i) ∧
      SimpleVector.eq (SimpleVector.ctorCopy fresh s).1 s = true ∧
      (SimpleVector.ctorCopy fresh s).2 = s) ∧
    ((t.assignCopy fresh s).1.size_ = s.size_ ∧
      (t.assignCopy fresh s).1.toList = s.toList ∧
      (∀ i, i < s.size_ → (t.assignCopy fresh s).1.index i = s.index i) ∧
      SimpleVector.eq (t.assignCopy fresh s).1 s = true ∧
      (t.assignCopy fresh s).2 = s) ∧
    (∀ i y, i < s.size_ →
      ((SimpleVector.ctorCopy fresh s).1.setIndex i y).index i = some y ∧
      (SimpleVector.ctorCopy fresh s).2.index i = s.index i) ∧
    (∀ fr : Nat → Nat,
      (SimpleVector.ctorInit fr [5, 6, 7]).index 0 = some 5 ∧
      (SimpleVector.ctorCopy fr (SimpleVector.ctorInit fr [5, 6, 7])).1.index 0 = some 5 ∧
      ((SimpleVector.ctorCopy fr (SimpleVector.ctorInit fr [5, 6, 7])).1.setIndex 0 99).index 0
        = some 99 ∧
      (SimpleVector.ctorCopy fr (SimpleVector.ctorInit fr [5, 6, 7])).2.index 0 = some 5) := by
  obtain ⟨hinv, hsz, hl, _⟩ := SimpleVector.ctorCopy_spec fresh s hs
  have hpart : (SimpleVector.ctorCopy fresh s).1.size_ = s.size_ ∧
      (SimpleVector.ctorCopy fresh s).1.toList = s.toList ∧
      (∀ i, i < s.size_ → (SimpleVector.ctorCopy fresh s).1.index i = s.index i) ∧
      SimpleVector.eq (SimpleVector.ctorCopy fresh s).1 s = true ∧
      (SimpleVector.ctorCopy fresh s).2 = s :=
    ⟨hsz, hl, fun i hi => SimpleVector.index_eq_of_toList_eq _ _ hl hsz i hi,
      SimpleVector.eq_of_toList_eq _ _ hinv hs hl, rfl⟩
  refine ⟨hpart, hpart, fun i y hi => ⟨?_, rfl⟩, fun fr => ?_⟩
  · apply SimpleVector.setIndex_index
    have := hinv.1
    have := hinv.2
    omega
  · have hI := SimpleVector.ctorInit_Inv fr [5, 6, 7]
    have h0 : (SimpleVector.ctorInit fr [5, 6, 7]).index 0 = some 5 := by
      show (SimpleVector.ctorInit fr [5, 6, 7]).storage_[0]? = some 5
      rw [SimpleVector.ctorInit_storage]
      rfl
    obtain ⟨hinv', hsz', hl', _⟩ := SimpleVector.ctorCopy_spec fr _ hI
    have hsz3 : (SimpleVector.ctorInit fr [5, 6, 7]).size_ = 3 := rfl
    refine ⟨h0, ?_, ?_, h0⟩
    · rw [SimpleVector.index_eq_of_toList_eq _ _ hl' hsz' 0 (by omega), h0]
    · apply SimpleVector.setIndex_index
      have := hinv'.1
      have := hinv'.2
      omega

/-- C7 at concrete inputs: the copy of `[5, 6, 7]` (held in a buffer of five slots)
compares equal to it, and so does the target of a copy assignment from it. -/
theorem C7_copy_equal_independent_witness :
    (⟨[5, 6, 7, 0, 0], 3, 5⟩ : SimpleVector Nat).Inv ∧
    SimpleVector.eq
      (SimpleVector.ctorCopy (fun _ => 0) (⟨[5, 6, 7, 0, 0], 3, 5⟩ : SimpleVector Nat)).1
      ⟨[5, 6, 7, 0, 0], 3, 5⟩ = true ∧
    SimpleVector.eq
      ((⟨[1], 1, 1⟩ : SimpleVector Nat).assignCopy (fun _ => 0) ⟨[5, 6, 7, 0, 0], 3, 5⟩).1
      ⟨[5, 6, 7, 0, 0], 3, 5⟩ = true :=
  ⟨by decide,
    (C7_copy_equal_independent (fun _ => 0) ⟨[5, 6, 7, 0, 0], 3, 5⟩ ⟨[1], 1, 1⟩
      (by decide)).1.2.2.2.1,
    (C7_copy_equal_independent (fun _ => 0) ⟨[5, 6, 7, 0, 0], 3, 5⟩ ⟨[1], 1, 1⟩
      (by decide)).2.1.2.2.2.1⟩

/-- C8, as amended: the capacity of the vector copy-constructed from `s` is `0` when
`s` is empty and otherwise the smallest power of two that is at least the size of `s`
(the copy is filled by `PushBack` from an empty vector); it is determined by the size of
`s` and not by the capacity of `s`. -/
theorem C8_copy_capacity {α : Type} (fresh : Nat → α) (s : SimpleVector α) (hs : s.Inv) :
    (s.size_ = 0 → (SimpleVector.ctorCopy fresh s).1.capacity_ = 0) ∧
    (s.size_ ≠ 0 → ∃ k, (SimpleVector.ctorCopy fresh s).1.capacity_ = 2 ^ k ∧
      s.size_ ≤ 2 ^ k ∧ ∀ j, s.size_ ≤ 2 ^ j → 2 ^ k ≤ 2 ^ j) := by
  obtain ⟨_, _, _, hd⟩ := SimpleVector.ctorCopy_spec fresh s hs
  exact ⟨hd.1, SimpleVector.Doubled_minimal _ _ hd⟩

/-- C8 at concrete inputs: the copy of `[5, 6, 7]` (size 3, capacity 3) has as capacity
the least power of two that is at least 3; the copy of the empty vector of capacity 4
has capacity 0. -/
theorem C8_copy_capacity_witness :
    ((⟨[5, 6, 7], 3, 3⟩ : SimpleVector Nat).Inv ∧ (⟨[5, 6, 7], 3, 3⟩ : SimpleVector Nat).size_ ≠ 0 ∧
      ∃ k, (SimpleVector.ctorCopy (fun _ => 0)
          (⟨[5, 6, 7], 3, 3⟩ : SimpleVector Nat)).1.capacity_ = 2 ^ k ∧
        (⟨[5, 6, 7], 3, 3⟩ : SimpleVector Nat).size_ ≤ 2 ^ k ∧
        ∀ j, (⟨[5, 6, 7], 3, 3⟩ : SimpleVector Nat).size_ ≤ 2 ^ j → 2 ^ k ≤ 2 ^ j) ∧
    ((⟨[0, 0, 0, 0], 0, 4⟩ : SimpleVector Nat).Inv ∧
      (SimpleVector.ctorCopy (fun _ => 0)
        (⟨[0, 0, 0, 0], 0, 4⟩ : SimpleVector Nat)).1.capacity_ = 0) :=
  ⟨⟨by decide, by decide,
      (C8_copy_capacity (fun _ => 0) ⟨[5, 6, 7], 3, 3⟩ (by decide)).2 (by decide)⟩,
    by decide, (C8_copy_capacity (fun _ => 0) ⟨[0, 0, 0, 0], 0, 4⟩ (by decide)).1 rfl⟩

/-- C8 as stated fails: the vector built from the literal list `[5, 6, 7]` has size 3
and capacity 3, and its copy has capacity 4, which is not the size of the source. -/
theorem C8_copy_capacity_counterexample :
    (SimpleVector.ctorInit (fun _ => 0) [5, 6, 7]).Inv ∧
    (SimpleVector.ctorInit (fun _ => 0) [5, 6, 7]).size_ = 3 ∧
    (SimpleVector.ctorCopy (fun _ => 0) (SimpleVector.ctorInit (fun _ => 0) [5, 6, 7])).1.capacity_
      = 4 ∧
    ¬ (SimpleVector.ctorCopy (fun _ => 0)
        (SimpleVector.ctorInit (fun _ => 0) [5, 6, 7])).1.capacity_ =
      (SimpleVector.ctorInit (fun _ => 0) [5, 6, 7]).size_ := by
  decide

/-- C9: move construction from `s` gives a vector with the size, the capacity and the
buffer (hence the elements) that `s` had, and leaves `s` with `size_ = 0`,
`capacity_ = 0` and no buffer. -/
theorem C9_move_construction {α : Type} (s : SimpleVector α) :
    (SimpleVector.ctorMove s).1.size_ = s.size_ ∧
    (SimpleVector.ctorMove s).1.capacity_ = s.capacity_ ∧
    (SimpleVector.ctorMove s).1.storage_ = s.storage_ ∧
    (SimpleVector.ctorMove s).1.toList = s.toList ∧
    (SimpleVector.ctorMove s).2.size_ = 0 ∧
    (SimpleVector.ctorMove s).2.capacity_ = 0 ∧
    (SimpleVector.ctorMove s).2.storage_ = [] ∧
    (SimpleVector.ctorMove s).2.IsEmpty = true :=
  ⟨rfl, rfl, rfl, rfl, rfl, rfl, rfl, rfl⟩

/-- C10: move assignment `a = std::move(b)` between two different objects is a swap:
afterwards `a` has the size, capacity and buffer `b` had, and `b` has those `a` had;
so `b` is left empty exactly when `a` was empty. -/
theorem C10_move_assignment_swaps {α : Type} (a b : SimpleVector α) :
    ((a.assignMove b).1.size_ = b.size_ ∧
      (a.assignMove b).1.capacity_ = b.capacity_ ∧
      (a.assignMove b).1.storage_ = b.storage_ ∧
      (a.assignMove b).1.toList = b.toList) ∧
    ((a.assignMove b).2.size_ = a.size_ ∧
      (a.assignMove b).2.capacity_ = a.capacity_ ∧
      (a.assignMove b).2.storage_ = a.storage_ ∧
      (a.assignMove b).2.toList = a.toList) ∧
    ((a.assignMove b).2.size_ = 0 ↔ a.size_ = 0) :=
  ⟨⟨rfl, rfl, rfl, rfl⟩, ⟨rfl, rfl, rfl, rfl⟩, Iff.rfl⟩

/-! ## Lemmas on `Reserve`, `Resize` and the accessors -/

namespace SimpleVector

variable {α : Type}

theorem alloc_getElem? (fresh : Nat → α) (n i : Nat) :
    (ArrayPtr.alloc fresh n)[i]? = if i < n then some (fresh i) else none := by
  unfold ArrayPtr.alloc
  rw [List.getElem?_map]
  by_cases h : i < n
  · rw [List.getElem?_range h, if_pos h]
    rfl
  · rw [List.getElem?_eq_none (by rw [List.length_range]; omega), if_neg h]
    rfl

theorem Reserve_of_le (fresh : Nat → α) (v : SimpleVector α) (c : Nat)
    (h : c ≤ v.capacity_) : v.Reserve fresh c = v := by
  unfold Reserve
  rw [if_neg (by omega)]

theorem Reserve_size (fresh : Nat → α) (v : SimpleVector α) (c : Nat) :
    (v.Reserve fresh c).size_ = v.size_ := by
  unfold Reserve
  split <;> rfl

theorem Reserve_capacity (fresh : Nat → α) (v : SimpleVector α) (c : Nat) :
    (v.Reserve fresh c).capacity_ = max v.capacity_ c := by
  unfold Reserve
  split
  · next h =>
    show c = max v.capacity_ c
    omega
  · next h =>
    show v.capacity_ = max v.capacity_ c
    omega

theorem Reserve_getElem? (fresh : Nat → α) (v : SimpleVector α) (c : Nat) (hinv : v.Inv)
    (i : Nat) (hi : i < v.size_) : (v.Reserve fresh c).storage_[i]? = v.storage_[i]? := by
  obtain ⟨hsz, hbuf⟩ := hinv
  unfold Reserve
  split
  · next h =>
    show (std_move v.storage_ v.begin v.end (ArrayPtr.alloc fresh c) 0).1[i]? = _
    unfold std_move «end» begin
    rw [std_move_loop_getElem? _ _ _ _ _ (by omega), alloc_length,
      if_pos (by omega), Nat.sub_zero, Nat.zero_add]
  · rfl

theorem Reserve_toList (fresh : Nat → α) (v : SimpleVector α) (c : Nat) (hinv : v.Inv) :
    (v.Reserve fresh c).toList = v.toList := by
  apply List.ext_getElem?
  intro i
  simp only [toList, List.getElem?_take, Reserve_size]
  by_cases hi : i < v.size_
  · rw [if_pos hi, if_pos hi, Reserve_getElem? fresh v c hinv i hi]
  · rw [if_neg hi, if_neg hi]

theorem Resize_of_le [Inhabited α] (fresh : Nat → α) (v : SimpleVector α) (m : Nat)
    (h : m ≤ v.size_) : v.Resize fresh m = { v with size_ := m } := by
  unfold Resize
  rw [if_pos h]

theorem Resize_size [Inhabited α] (fresh : Nat → α) (v : SimpleVector α) (n : Nat) :
    (v.Resize fresh n).size_ = n := by
  unfold Resize
  split
  · rfl
  · split <;> rfl

theorem Resize_capacity [Inhabited α] (fresh : Nat → α) (v : SimpleVector α) (n : Nat)
    (hsz : v.size_ ≤ v.capacity_) :
    (v.Resize fresh n).capacity_ =
      if n ≤ v.capacity_ then v.capacity_ else max n (v.capacity_ * 2) := by
  unfold Resize
  split
  · next h => rw [if_pos (by omega)]
  · split
    · next h1 h2 => rw [if_pos h2.1]
    · next h1 h2 =>
      show (v.Reserve fresh (max n (v.capacity_ * 2))).capacity_ = _
      rw [Reserve_capacity, if_neg (by omega)]
      omega

theorem Resize_getElem? [Inhabited α] (fresh : Nat → α) (v : SimpleVector α) (n : Nat)
    (hinv : v.Inv) (hn : v.size_ < n) (i : Nat) (hi : i < n) :
    (v.Resize fresh n).storage_[i]? = if i < v.size_ then v.storage_[i]? else some default := by
  obtain ⟨hsz, hbuf⟩ := hinv
  unfold Resize
  rw [if_neg (by omega)]
  split
  · next h =>
    show (std_generate v.storage_ (v.begin + v.size_) (v.begin + n) (fun _ => default))[i]? = _
    unfold std_generate begin
    rw [std_generate_loop_getElem?]
    by_cases h1 : i < v.size_
    · rw [if_neg (by omega), if_pos h1]
    · rw [if_pos (by omega), if_neg h1]
  · next h =>
    have hR := Reserve_Inv fresh v (max n (v.capacity_ * 2)) ⟨hsz, hbuf⟩
    have hc := Reserve_capacity fresh v (max n (v.capacity_ * 2))
    have hlen : (v.Reserve fresh (max n (v.capacity_ * 2))).storage_.length
        = max v.capacity_ (max n (v.capacity_ * 2)) := by rw [hR.2, hc]
    show (std_generate (v.Reserve fresh (max n (v.capacity_ * 2))).storage_
      ((v.Reserve fresh (max n (v.capacity_ * 2))).begin + v.size_)
      ((v.Reserve fresh (max n (v.capacity_ * 2))).begin + n) (fun _ => default))[i]? = _
    unfold std_generate begin
    rw [std_generate_loop_getElem?, hlen]
    by_cases h1 : i < v.size_
    · rw [if_neg (by omega), if_pos h1, Reserve_getElem? fresh v _ ⟨hsz, hbuf⟩ i h1]
    · rw [if_pos (by omega), if_neg h1]

theorem Resize_toList_grow [Inhabited α] (fresh : Nat → α) (v : SimpleVector α) (n : Nat)
    (hinv : v.Inv) (hn : v.size_ < n) :
    (v.Resize fresh n).toList = v.toList ++ List.replicate (n - v.size_) default := by
  have hlen := toList_length v hinv
  apply List.ext_getElem?
  intro i
  rw [List.getElem?_append, hlen]
  simp only [toList, List.getElem?_take, Resize_size, List.getElem?_replicate]
  by_cases hi : i < n
  · rw [if_pos hi, Resize_getElem? fresh v n hinv hn i hi]
    by_cases h1 : i < v.size_
    · rw [if_pos h1, if_pos h1, if_pos h1]
    · rw [if_neg h1, if_neg h1, if_pos (by omega)]
  · rw [if_neg hi, if_neg (by omega), if_neg (by omega)]

theorem Resize_Resize_of_le [Inhabited α] (fresh : Nat → α) (v : SimpleVector α) (m n : Nat)
    (hmn : m ≤ n) (hn : n ≤ v.size_) :
    (v.Resize fresh n).Resize fresh m = v.Resize fresh m := by
  rw [Resize_of_le fresh v n hn, Resize_of_le fresh _ m hmn, Resize_of_le fresh v m (by omega)]

end SimpleVector

/-- C11: for a vector with `size_ ≤ capacity_` and any `new_capacity`, `Reserve` leaves
the vector as it is (all three members) when `new_capacity ≤ capacity_`; otherwise the
capacity becomes exactly `new_capacity` and the buffer has that many slots, while the
size and the visible sequence are kept. In both cases the capacity afterwards is
`max(capacity_, new_capacity)`, so it never shrinks. -/
theorem C11_Reserve {α : Type} (fresh : Nat → α) (v : SimpleVector α) (new_capacity : Nat)
    (hinv : v.Inv) :
    (new_capacity ≤ v.capacity_ → v.Reserve fresh new_capacity = v) ∧
    (v.capacity_ < new_capacity →
      (v.Reserve fresh new_capacity).capacity_ = new_capacity ∧
      (v.Reserve fresh new_capacity).storage_.length = new_capacity ∧
      (v.Reserve fresh new_capacity).size_ = v.size_ ∧
      (v.Reserve fresh new_capacity).toList = v.toList) ∧
    (v.Reserve fresh new_capacity).capacity_ = max v.capacity_ new_capacity ∧
    v.capacity_ ≤ (v.Reserve fresh new_capacity).capacity_ := by
  have hc := SimpleVector.Reserve_capacity fresh v new_capacity
  refine ⟨SimpleVector.Reserve_of_le fresh v new_capacity, fun h => ⟨?_, ?_,
    SimpleVector.Reserve_size fresh v new_capacity,
    SimpleVector.Reserve_toList fresh v new_capacity hinv⟩, hc, ?_⟩
  · rw [hc]
    omega
  · rw [(SimpleVector.Reserve_Inv fresh v new_capacity hinv).2, hc]
    omega
  · rw [hc]
    omega

/-- C11 at concrete inputs: `Reserve(7)` on `[1, 2, 3]` of capacity 5 keeps the three
elements and sets the capacity to 7; `Reserve(4)` changes nothing. -/
theorem C11_Reserve_witness :
    (⟨[1, 2, 3, 7, 8], 3, 5⟩ : SimpleVector Nat).Inv ∧
    ((⟨[1, 2, 3, 7, 8], 3, 5⟩ : SimpleVector Nat).Reserve (fun _ => 0) 7).capacity_ = 7 ∧
    ((⟨[1, 2, 3, 7, 8], 3, 5⟩ : SimpleVector Nat).Reserve (fun _ => 0) 7).toList
      = (⟨[1, 2, 3, 7, 8], 3, 5⟩ : SimpleVector Nat).toList ∧
    (⟨[1, 2, 3, 7, 8], 3, 5⟩ : SimpleVector Nat).Reserve (fun _ => 0) 4
      = ⟨[1, 2, 3, 7, 8], 3, 5⟩ :=
  ⟨by decide,
    ((C11_Reserve (fun _ => 0) ⟨[1, 2, 3, 7, 8], 3, 5⟩ 7 (by decide)).2.1 (by decide)).1,
    ((C11_Reserve (fun _ => 0) ⟨[1, 2, 3, 7, 8], 3, 5⟩ 7 (by decide)).2.1 (by decide)).2.2.2,
    (C11_Reserve (fun _ => 0) ⟨[1, 2, 3, 7, 8], 3, 5⟩ 4 (by decide)).1 (by decide)⟩

/-- C12: for a vector with `size_ ≤ capacity_` and `new_size > size_`, `Resize(new_size)`
gives size `new_size` and the visible sequence "the old elements, then
`new_size - size_` copies of the default value `Type{}`" (whatever the slots held
before); the capacity is unchanged when `new_size ≤ capacity_` and is
`max(new_size, capacity_ * 2)` when `new_size > capacity_`. -/
theorem C12_Resize_grow {α : Type} [Inhabited α] (fresh : Nat → α) (v : SimpleVector α)
    (new_size : Nat) (hinv : v.Inv) (hn : v.size_ < new_size) :
    (v.Resize fresh new_size).size_ = new_size ∧
    (v.Resize fresh new_size).toList =
      v.toList ++ List.replicate (new_size - v.size_) default ∧
    (∀ i, i < v.size_ → (v.Resize fresh new_size).toList[i]? = v.toList[i]?) ∧
    (∀ i, v.size_ ≤ i → i < new_size → (v.Resize fresh new_size).toList[i]? = some default) ∧
    (new_size ≤ v.capacity_ → (v.Resize fresh new_size).capacity_ = v.capacity_) ∧
    (v.capacity_ < new_size →
      (v.Resize fresh new_size).capacity_ = max new_size (v.capacity_ * 2)) := by
  have hl := SimpleVector.Resize_toList_grow fresh v new_size hinv hn
  have hlen := SimpleVector.toList_length v hinv
  have hc := SimpleVector.Resize_capacity fresh v new_size hinv.1
  refine ⟨SimpleVector.Resize_size fresh v new_size, hl, fun i hi => ?_, fun i h1 h2 => ?_,
    fun h => ?_, fun h => ?_⟩
  · rw [hl, List.getElem?_append, hlen, if_pos hi]
  · rw [hl, List.getElem?_append, hlen, if_neg (by omega), List.getElem?_replicate,
      if_pos (by omega)]
  · rw [hc, if_pos h]
  · rw [hc, if_neg (by omega)]

/-- C12 at concrete inputs: `[1, 2, 3]` in a buffer whose two spare slots hold the stale
values 7 and 8; `Resize(5)` shows `[1, 2, 3, 0, 0]` and keeps capacity 5, and
`Resize(6)` raises the capacity to 10. -/
theorem C12_Resize_grow_witness :
    (⟨[1, 2, 3, 7, 8], 3, 5⟩ : SimpleVector Nat).Inv ∧ 3 < 5 ∧
    ((⟨[1, 2, 3, 7, 8], 3, 5⟩ : SimpleVector Nat).Resize (fun _ => 9) 5).toList
      = (⟨[1, 2, 3, 7, 8], 3, 5⟩ : SimpleVector Nat).toList ++ List.replicate (5 - 3) 0 ∧
    ((⟨[1, 2, 3, 7, 8], 3, 5⟩ : SimpleVector Nat).Resize (fun _ => 9) 5).capacity_ = 5 ∧
    ((⟨[1, 2, 3, 7, 8], 3, 5⟩ : SimpleVector Nat).Resize (fun _ => 9) 6).capacity_ = 10 :=
  ⟨by decide, by decide,
    (C12_Resize_grow (fun _ => 9) ⟨[1, 2, 3, 7, 8], 3, 5⟩ 5 (by decide) (by decide)).2.1,
    (C12_Resize_grow (fun _ => 9) ⟨[1, 2, 3, 7, 8], 3, 5⟩ 5 (by decide) (by decide)).2.2.2.2.1
      (by decide),
    (C12_Resize_grow (fun _ => 9) ⟨[1, 2, 3, 7, 8], 3, 5⟩ 6 (by decide) (by decide)).2.2.2.2.2
      (by decide)⟩

/-- C13: for any vector and `m ≤ size_`, `Resize(m)` sets the size to `m` and leaves the
capacity and the buffer as they are, so the elements at positions below `m` are
unchanged; and for every `n` with `m ≤ n ≤ size_`, `Resize(n)` followed by `Resize(m)`
gives the same size, capacity and visible sequence as `Resize(m)` alone. -/
theorem C13_Resize_shrink {α : Type} [Inhabited α] (fresh : Nat → α) (v : SimpleVector α)
    (m : Nat) (hm : m ≤ v.size_) :
    ((v.Resize fresh m).size_ = m ∧
      (v.Resize fresh m).capacity_ = v.capacity_ ∧
      (v.Resize fresh m).storage_ = v.storage_ ∧
      (v.Resize fresh m).toList = v.toList.take m ∧
      (∀ i, i < m → (v.Resize fresh m).toList[i]? = v.toList[i]?)) ∧
    (∀ n, m ≤ n → n ≤ v.size_ →
      ((v.Resize fresh n).Resize fresh m).size_ = (v.Resize fresh m).size_ ∧
      ((v.Resize fresh n).Resize fresh m).capacity_ = (v.Resize fresh m).capacity_ ∧
      ((v.Resize fresh n).Resize fresh m).toList = (v.Resize fresh m).toList ∧
      (∀ i, i < m → ((v.Resize fresh n).Resize fresh m).toList[i]? = v.toList[i]?)) := by
  have hl : (v.Resize fresh m).toList = v.toList.take m := by
    rw [SimpleVector.Resize_of_le fresh v m hm]
    show v.storage_.take m = (v.storage_.take v.size_).take m
    rw [List.take_take, Nat.min_eq_left hm]
  have hi : ∀ i, i < m → (v.Resize fresh m).toList[i]? = v.toList[i]? := by
    intro i hi
    rw [hl, List.getElem?_take, if_pos hi]
  refine ⟨⟨SimpleVector.Resize_size fresh v m, ?_, ?_, hl, hi⟩, fun n hmn hn => ?_⟩
  · rw [SimpleVector.Resize_of_le fresh v m hm]
  · rw [SimpleVector.Resize_of_le fresh v m hm]
  · rw [SimpleVector.Resize_Resize_of_le fresh v m n hmn hn]
    exact ⟨rfl, rfl, rfl, hi⟩

/-- C13 at concrete inputs: `[1, 2, 3, 4]`, `Resize(3)` then `Resize(1)`. -/
theorem C13_Resize_shrink_witness :
    1 ≤ 4 ∧ 1 ≤ 3 ∧ 3 ≤ 4 ∧
    ((⟨[1, 2, 3, 4], 4, 4⟩ : SimpleVector Nat).Resize (fun _ => 0) 1).toList
      = (⟨[1, 2, 3, 4], 4, 4⟩ : SimpleVector Nat).toList.take 1 ∧
    (((⟨[1, 2, 3, 4], 4, 4⟩ : SimpleVector Nat).Resize (fun _ => 0) 3).Resize (fun _ => 0)
      1).toList = ((⟨[1, 2, 3, 4], 4, 4⟩ : SimpleVector Nat).Resize (fun _ => 0) 1).toList :=
  ⟨by decide, by decide, by decide,
    (C13_Resize_shrink (fun _ => 0) ⟨[1, 2, 3, 4], 4, 4⟩ 1 (by decide)).1.2.2.2.1,
    ((C13_Resize_shrink (fun _ => 0) ⟨[1, 2, 3, 4], 4, 4⟩ 1 (by decide)).2 3 (by decide)
      (by decide)).2.2.1⟩

/-! ## Lemmas on the checked accessor and on equality -/

namespace SimpleVector

variable {α : Type}

theorem At_of_ge (v : SimpleVector α) (i : Nat) (h : v.size_ ≤ i) :
    v.At i = Except.error { what := "Invalid index" } := by
  unfold At
  rw [if_pos h]

theorem At_of_lt (v : SimpleVector α) (i : Nat) (h : i < v.size_) :
    v.At i = Except.ok v.storage_[i]? := by
  unfold At
  rw [if_neg (by omega)]

theorem toList_getElem? (v : SimpleVector α) (i : Nat) (h : i < v.size_) :
    v.toList[i]? = v.storage_[i]? := by
  simp only [toList, List.getElem?_take, if_pos h]

theorem toList_getElem?_some (v : SimpleVector α) (hinv : v.Inv) (i : Nat) (h : i < v.size_) :
    ∃ x, v.toList[i]? = some x := by
  have hlen := toList_length v hinv
  exact ⟨v.toList[i], List.getElem?_eq_getElem (by omega)⟩

theorem eq_iff [BEq α] (a b : SimpleVector α) (ha : a.Inv) (hb : b.Inv) :
    eq a b = true ↔ a.toList.length = b.toList.length ∧
      ∀ i, i < a.toList.length →
        ∃ x y, a.toList[i]? = some x ∧ b.toList[i]? = some y ∧ (x == y) = true := by
  rw [toList_length a ha, toList_length b hb]
  unfold eq std_equal «end» begin
  simp only [Nat.sub_zero]
  by_cases hsz : a.size_ = b.size_
  · rw [if_neg (by simpa using hsz), std_equal_loop_iff]
    constructor
    · intro h
      refine ⟨hsz, fun i hi => ?_⟩
      obtain ⟨x, y, h1, h2, h3⟩ := h i hi
      rw [Nat.zero_add] at h1 h2
      exact ⟨x, y, by rw [toList_getElem? a i hi, h1],
        by rw [toList_getElem? b i (by omega), h2], h3⟩
    · intro h k hk
      obtain ⟨x, y, h1, h2, h3⟩ := h.2 k hk
      rw [toList_getElem? a k hk] at h1
      rw [toList_getElem? b k (by omega)] at h2
      exact ⟨x, y, by rw [Nat.zero_add, h1], by rw [Nat.zero_add, h2], h3⟩
  · rw [if_pos (by simpa using hsz)]
    constructor
    · intro h
      exact absurd h (by decide)
    · intro h
      exact absurd h.1 hsz

theorem eq_congr [BEq α] (a b a' b' : SimpleVector α) (ha : a.Inv) (hb : b.Inv)
    (ha' : a'.Inv) (hb' : b'.Inv) (h1 : a'.toList = a.toList) (h2 : b'.toList = b.toList) :
    eq a' b' = eq a b := by
  rw [Bool.eq_iff_iff, eq_iff a b ha hb, eq_iff a' b' ha' hb', h1, h2]

end SimpleVector

/-- C14: for a vector with `size_ ≤ capacity_`, the checked accessor `At(i)` throws
exactly when `i ≥ size_`; for `i < size_` it returns the element at position `i` of the
visible sequence (`At` only reads the members). In particular `At(size_)` throws and,
when `size_ > 0`, `At(size_ - 1)` returns an element. -/
theorem C14_At_checked {α : Type} (v : SimpleVector α) (hinv : v.Inv) :
    (∀ i, (∃ e, v.At i = Except.error e) ↔ v.size_ ≤ i) ∧
    (∀ i, i < v.size_ → ∃ x, v.toList[i]? = some x ∧ v.At i = Except.ok (some x)) ∧
    (∃ e, v.At v.size_ = Except.error e) ∧
    (0 < v.size_ → ∃ x, v.toList[v.size_ - 1]? = some x ∧
      v.At (v.size_ - 1) = Except.ok (some x)) := by
  have hok : ∀ i, i < v.size_ → ∃ x, v.toList[i]? = some x ∧ v.At i = Except.ok (some x) := by
    intro i hi
    obtain ⟨x, hx⟩ := SimpleVector.toList_getElem?_some v hinv i hi
    refine ⟨x, hx, ?_⟩
    rw [SimpleVector.At_of_lt v i hi, ← SimpleVector.toList_getElem? v i hi, hx]
  refine ⟨fun i => ⟨fun h => ?_, fun h => ⟨_, SimpleVector.At_of_ge v i h⟩⟩, hok,
    ⟨_, SimpleVector.At_of_ge v v.size_ (Nat.le_refl _)⟩, fun h => hok _ (by omega)⟩
  by_contra hlt
  obtain ⟨e, he⟩ := h
  rw [SimpleVector.At_of_lt v i (by omega)] at he
  exact absurd he (by simp)

/-- C14 at concrete inputs: on `[1, 2, 3]` of capacity 4, `At(2)` returns 3 and `At(3)`
throws. -/
theorem C14_At_checked_witness :
    (⟨[1, 2, 3, 0], 3, 4⟩ : SimpleVector Nat).Inv ∧
    (∃ x, (⟨[1, 2, 3, 0], 3, 4⟩ : SimpleVector Nat).toList[2]? = some x ∧
      (⟨[1, 2, 3, 0], 3, 4⟩ : SimpleVector Nat).At 2 = Except.ok (some x)) ∧
    (∃ e, (⟨[1, 2, 3, 0], 3, 4⟩ : SimpleVector Nat).At 3 = Except.error e) :=
  ⟨by decide,
    (C14_At_checked ⟨[1, 2, 3, 0], 3, 4⟩ (by decide)).2.1 2 (by decide),
    (C14_At_checked ⟨[1, 2, 3, 0], 3, 4⟩ (by decide)).2.2.1⟩

/-- C15, as amended: whenever `At(i)` fails (`i ≥ size_`), the error it signals is
`std::out_of_range` with the fixed message "Invalid index", the same value for every
index and every size; it holds neither the requested index nor the bound. -/
theorem C15_At_error_value {α : Type} (v : SimpleVector α) (i : Nat) (h : v.size_ ≤ i) :
    v.At i = Except.error { what := "Invalid index" } ∧
    ∀ (w : SimpleVector α) (j : Nat), w.size_ ≤ j → w.At j = v.At i := by
  refine ⟨SimpleVector.At_of_ge v i h, fun w j hj => ?_⟩
  rw [SimpleVector.At_of_ge v i h, SimpleVector.At_of_ge w j hj]

/-- C15 at concrete inputs: `At(5)` on `[1, 2, 3]`. -/
theorem C15_At_error_value_witness :
    3 ≤ 5 ∧
    (⟨[1, 2, 3, 0], 3, 4⟩ : SimpleVector Nat).At 5 = Except.error { what := "Invalid index" } :=
  ⟨by decide, (C15_At_error_value ⟨[1, 2, 3, 0], 3, 4⟩ 5 (by decide)).1⟩

/-- C15 as stated fails: on the empty vector `At(0)` and `At(1)` signal the same error
value, and `At(1)` on the empty vector and on `[7]` do too; so no function of the error
value returns the requested index and the bound. -/
theorem C15_At_error_value_counterexample :
    (SimpleVector.ctor : SimpleVector Nat).At 0 = (SimpleVector.ctor : SimpleVector Nat).At 1 ∧
    (SimpleVector.ctor : SimpleVector Nat).At 1 = (⟨[7], 1, 1⟩ : SimpleVector Nat).At 1 ∧
    ¬ ∃ recover : std_out_of_range → Nat × Nat,
      ∀ (v : SimpleVector Nat) (i : Nat) (e : std_out_of_range),
        v.At i = Except.error e → recover e = (i, v.size_) := by
  refine ⟨rfl, rfl, ?_⟩
  rintro ⟨recover, h⟩
  have h0 := h SimpleVector.ctor 0 _ rfl
  have h1 := h SimpleVector.ctor 1 _ rfl
  rw [h0] at h1
  exact absurd (congrArg Prod.fst h1) (by decide)

/-- C16: for two vectors with `size_ ≤ capacity_`, `a == b` is true exactly when the
sizes are equal and the elements at every position below the size compare equal with
the element `==`; the result is the same for any other pair of vectors showing the same
two visible sequences, whatever their capacities and the slots at or beyond `size_`
hold; and `a != b` is the negation of `a == b`. -/
theorem C16_equality {α : Type} [BEq α] (a b : SimpleVector α) (ha : a.Inv) (hb : b.Inv) :
    (SimpleVector.eq a b = true ↔
      a.size_ = b.size_ ∧
      ∀ i, i < a.size_ →
        ∃ x y, a.toList[i]? = some x ∧ b.toList[i]? = some y ∧ (x == y) = true) ∧
    (∀ a' b' : SimpleVector α, a'.Inv → b'.Inv → a'.toList = a.toList →
      b'.toList = b.toList → SimpleVector.eq a' b' = SimpleVector.eq a b) ∧
    SimpleVector.ne a b = !(SimpleVector.eq a b) := by
  refine ⟨?_, fun a' b' ha' hb' h1 h2 => SimpleVector.eq_congr a b a' b' ha hb ha' hb' h1 h2,
    rfl⟩
  rw [SimpleVector.eq_iff a b ha hb, SimpleVector.toList_length a ha,
    SimpleVector.toList_length b hb]

/-- C16 at concrete inputs: `[1, 2]` in a buffer of capacity 4 with stale slots against
`[1, 2]` in a buffer of capacity 2. -/
theorem C16_equality_witness :
    (⟨[1, 2, 8, 9], 2, 4⟩ : SimpleVector Nat).Inv ∧ (⟨[1, 2], 2, 2⟩ : SimpleVector Nat).Inv ∧
    SimpleVector.eq (⟨[1, 2, 8, 9], 2, 4⟩ : SimpleVector Nat) ⟨[1, 2], 2, 2⟩
      = SimpleVector.eq (⟨[1, 2], 2, 2⟩ : SimpleVector Nat) ⟨[1, 2], 2, 2⟩ ∧
    SimpleVector.eq (⟨[1, 2, 8, 9], 2, 4⟩ : SimpleVector Nat) ⟨[1, 2], 2, 2⟩ = true :=
  ⟨by decide, by decide,
    (C16_equality (⟨[1, 2], 2, 2⟩ : SimpleVector Nat) ⟨[1, 2], 2, 2⟩ (by decide)
      (by decide)).2.1 ⟨[1, 2, 8, 9], 2, 4⟩ ⟨[1, 2], 2, 2⟩ (by decide) (by decide) rfl rfl,
    by decide⟩

/-! ## Lemmas on the ordering -/

section ordering

variable {α : Type}

theorem std_lexicographical_compare_loop_eq [LT α] [∀ a b : α, Decidable (a < b)]
    (b1 : ArrayPtr α) (last1 : Nat) (b2 : ArrayPtr α) (last2 : Nat) (n i j : Nat)
    (hn : i + n = last1) (h1 : last1 ≤ b1.length) (hj : j ≤ last2) (h2 : last2 ≤ b2.length) :
    std_lexicographical_compare_loop b1 last1 b2 last2 n i j =
      lexLess ((b1.take last1).drop i) ((b2.take last2).drop j) := by
  induction n generalizing i j with
  | zero =>
    have hi : i = last1 := by omega
    subst hi
    have e1 : (b1.take i).drop i = [] := by
      apply List.drop_of_length_le
      rw [List.length_take]
      omega
    rw [std_lexicographical_compare_loop, e1]
    by_cases hjl : j = last2
    · subst hjl
      have e2 : (b2.take j).drop j = [] := by
        apply List.drop_of_length_le
        rw [List.length_take]
        omega
      rw [e2]
      simp [lexLess]
    · have hlt : j < (b2.take last2).length := by
        rw [List.length_take]
        omega
      rw [List.drop_eq_getElem_cons hlt]
      simp [lexLess, hjl]
  | succ n ih =>
    have hi : i < last1 := by omega
    have hlt1 : i < (b1.take last1).length := by
      rw [List.length_take]
      omega
    have hb1 : i < b1.length := by omega
    rw [std_lexicographical_compare_loop, List.drop_eq_getElem_cons hlt1]
    by_cases hjl : j = last2
    · subst hjl
      have e2 : (b2.take j).drop j = [] := by
        apply List.drop_of_length_le
        rw [List.length_take]
        omega
      rw [e2]
      simp [lexLess]
    · have hlt2 : j < (b2.take last2).length := by
        rw [List.length_take]
        omega
      have hb2 : j < b2.length := by omega
      rw [List.drop_eq_getElem_cons hlt2, if_pos ⟨by omega, hjl⟩,
        List.getElem?_eq_getElem hb1, List.getElem?_eq_getElem hb2]
      simp only [lexLess, List.getElem_take]
      rw [ih (i + 1) (j + 1) (by omega) (by omega)]

theorem lexLess_irrefl [LinearOrder α] (l : List α) : lexLess l l = false := by
  induction l with
  | nil => rfl
  | cons x xs ih => simp [lexLess, ih]

theorem lexLess_trichotomy [LinearOrder α] (l1 l2 : List α) :
    (lexLess l1 l2 = true ∧ l1 ≠ l2 ∧ lexLess l2 l1 = false) ∨
    (lexLess l1 l2 = false ∧ l1 = l2 ∧ lexLess l2 l1 = false) ∨
    (lexLess l1 l2 = false ∧ l1 ≠ l2 ∧ lexLess l2 l1 = true) := by
  induction l1 generalizing l2 with
  | nil =>
    cases l2 with
    | nil => exact Or.inr (Or.inl ⟨rfl, rfl, rfl⟩)
    | cons y ys => exact Or.inl ⟨rfl, by simp, rfl⟩
  | cons x xs ih =>
    cases l2 with
    | nil => exact Or.inr (Or.inr ⟨rfl, by simp, rfl⟩)
    | cons y ys =>
      rcases lt_trichotomy x y with hxy | hxy | hxy
      · refine Or.inl ⟨by simp [lexLess, hxy], ?_, by simp [lexLess, hxy, not_lt_of_lt hxy]⟩
        intro h
        injection h with h1 h2
        exact absurd h1 (ne_of_lt hxy)
      · subst hxy
        simp only [lexLess, lt_irrefl, if_false, List.cons.injEq, true_and, ne_eq]
        exact ih ys
      · refine Or.inr (Or.inr ⟨by simp [lexLess, hxy, not_lt_of_lt hxy], ?_,
          by simp [lexLess, hxy]⟩)
        intro h
        injection h with h1 h2
        exact absurd h1.symm (ne_of_lt hxy)

theorem lexLess_iff [LinearOrder α] (l1 l2 : List α) :
    lexLess l1 l2 = true ↔
      (l1.length < l2.length ∧ l1 = l2.take l1.length) ∨
      (∃ k, k < l1.length ∧ k < l2.length ∧ (∀ i, i < k → l1[i]? = l2[i]?) ∧
        ∃ x y, l1[k]? = some x ∧ l2[k]? = some y ∧ x < y) := by
  induction l1 generalizing l2 with
  | nil =>
    cases l2 with
    | nil => simp [lexLess]
    | cons y ys => simp [lexLess]
  | cons x xs ih =>
    cases l2 with
    | nil => simp [lexLess]
    | cons y ys =>
      rcases lt_trichotomy x y with hxy | hxy | hxy
      · have : lexLess (x :: xs) (y :: ys) = true := by simp [lexLess, hxy]
        rw [this]
        refine ⟨fun _ => Or.inr ⟨0, by simp, by simp, fun i hi => absurd hi (by omega),
          x, y, by simp, by simp, hxy⟩, fun _ => rfl⟩
      · subst hxy
        have : lexLess (x :: xs) (x :: ys) = lexLess xs ys := by simp [lexLess]
        rw [this, ih ys]
        constructor
        · rintro (⟨h1, h2⟩ | ⟨k, h1, h2, h3, a, b, h4, h5, h6⟩)
          · left
            refine ⟨by simpa using h1, ?_⟩
            simp only [List.length_cons, List.take_succ_cons]
            rw [← h2]
          · right
            refine ⟨k + 1, by simpa using h1, by simpa using h2, fun i hi => ?_,
              a, b, by simpa using h4, by simpa using h5, h6⟩
            cases i with
            | zero => simp
            | succ i => simpa using h3 i (by omega)
        · rintro (⟨h1, h2⟩ | ⟨k, h1, h2, h3, a, b, h4, h5, h6⟩)
          · left
            refine ⟨by simpa using h1, ?_⟩
            simp only [List.length_cons, List.take_succ_cons, List.cons.injEq, true_and] at h2
            exact h2
          · right
            cases k with
            | zero =>
              simp only [List.getElem?_cons_zero, Option.some.injEq] at h4 h5
              subst h4
              subst h5
              exact absurd h6 (lt_irrefl _)
            | succ k =>
              refine ⟨k, by simpa using h1, by simpa using h2, fun i hi => ?_,
                a, b, by simpa using h4, by simpa using h5, h6⟩
              simpa using h3 (i + 1) (by omega)
      · have : lexLess (x :: xs) (y :: ys) = false := by
          simp [lexLess, hxy, not_lt_of_lt hxy]
        rw [this]
        constructor
        · intro h
          exact absurd h (by decide)
        · rintro (⟨_, h2⟩ | ⟨k, _, _, h3, a, b, h4, h5, h6⟩)
          · simp only [List.length_cons, List.take_succ_cons, List.cons.injEq] at h2
            exact absurd h2.1.symm (ne_of_lt hxy)
          · cases k with
            | zero =>
              simp only [List.getElem?_cons_zero, Option.some.injEq] at h4 h5
              subst h4
              subst h5
              exact absurd h6 (not_lt_of_lt hxy)
            | succ k =>
              have h0 := h3 0 (by omega)
              simp only [List.getElem?_cons_zero, Option.some.injEq] at h0
              exact absurd h0.symm (ne_of_lt hxy)

end ordering

namespace SimpleVector

variable {α : Type}

theorem lt_eq_lexLess [LT α] [∀ a b : α, Decidable (a < b)] (a b : SimpleVector α)
    (ha : a.Inv) (hb : b.Inv) : lt a b = lexLess a.toList b.toList := by
  have h1 := ha.1
  have h2 := ha.2
  have h3 := hb.1
  have h4 := hb.2
  unfold lt std_lexicographical_compare «end» begin
  rw [std_lexicographical_compare_loop_eq _ _ _ _ _ _ _ (by omega) (by omega) (by omega)
    (by omega)]
  rfl

theorem eq_iff_toList_eq [BEq α] [LawfulBEq α] (a b : SimpleVector α)
    (ha : a.Inv) (hb : b.Inv) : eq a b = true ↔ a.toList = b.toList := by
  rw [eq_iff a b ha hb]
  constructor
  · rintro ⟨hlen, h⟩
    apply List.ext_getElem?
    intro i
    by_cases hi : i < a.toList.length
    · obtain ⟨x, y, h1, h2, h3⟩ := h i hi
      rw [h1, h2, eq_of_beq h3]
    · rw [List.getElem?_eq_none (by omega), List.getElem?_eq_none (by omega)]
  · intro h
    refine ⟨by rw [h], fun i hi => ?_⟩
    refine ⟨a.toList[i], a.toList[i], List.getElem?_eq_getElem hi, ?_, beq_self_eq_true _⟩
    rw [← h]
    exact List.getElem?_eq_getElem hi

theorem ctorInit_toList (fresh : Nat → α) (init : List α) :
    (ctorInit fresh init).toList = init := by
  have hs : (ctorInit fresh init).size_ = init.length := by
    unfold ctorInit
    split <;> rfl
  rw [toList, ctorInit_storage, hs, List.take_length]

end SimpleVector

/-- C17: for two vectors with `size_ ≤ capacity_` over a linearly ordered element type,
`a < b` is true exactly when the visible sequence of `a` is lexicographically smaller:
either `a` is a proper prefix of `b` (shorter, and equal to the first `size_` elements
of `b`), or there is a position `k` in both with equal elements before it and the
element of `a` at `k` less than that of `b`. The scenario, for vectors built from
literal lists: `[1, 2] < [1, 2, 3]`, `[1, 2, 3] < [1, 3]`, and `[1, 2]` compares equal
to a copy of itself. -/
theorem C17_less_lexicographic {α : Type} [LinearOrder α] (a b : SimpleVector α)
    (ha : a.Inv) (hb : b.Inv) :
    (SimpleVector.lt a b = true ↔
      (a.size_ < b.size_ ∧ a.toList = b.toList.take a.size_) ∨
      (∃ k, k < a.size_ ∧ k < b.size_ ∧ (∀ i, i < k → a.toList[i]? = b.toList[i]?) ∧
        ∃ x y, a.toList[k]? = some x ∧ b.toList[k]? = some y ∧ x < y)) ∧
    (∀ fr : Nat → Nat,
      SimpleVector.lt (SimpleVector.ctorInit fr [1, 2]) (SimpleVector.ctorInit fr [1, 2, 3])
        = true ∧
      SimpleVector.lt (SimpleVector.ctorInit fr [1, 2, 3]) (SimpleVector.ctorInit fr [1, 3])
        = true ∧
      SimpleVector.eq (SimpleVector.ctorInit fr [1, 2])
        (SimpleVector.ctorCopy fr (SimpleVector.ctorInit fr [1, 2])).1 = true) := by
  refine ⟨?_, fun fr => ⟨?_, ?_, ?_⟩⟩
  · rw [SimpleVector.lt_eq_lexLess a b ha hb, lexLess_iff, SimpleVector.toList_length a ha,
      SimpleVector.toList_length b hb]
  · rw [SimpleVector.lt_eq_lexLess _ _ (SimpleVector.ctorInit_Inv fr _)
      (SimpleVector.ctorInit_Inv fr _), SimpleVector.ctorInit_toList,
      SimpleVector.ctorInit_toList]
    decide
  · rw [SimpleVector.lt_eq_lexLess _ _ (SimpleVector.ctorInit_Inv fr _)
      (SimpleVector.ctorInit_Inv fr _), SimpleVector.ctorInit_toList,
      SimpleVector.ctorInit_toList]
    decide
  · have hI := SimpleVector.ctorInit_Inv fr [1, 2]
    obtain ⟨hc, _, hl, _⟩ := SimpleVector.ctorCopy_spec fr _ hI
    exact SimpleVector.eq_of_toList_eq _ _ hI hc hl.symm

/-- C17 at concrete inputs: `[1, 2, 3]` (capacity 4) against `[1, 3]`: position 1 is the
first difference and `2 < 3`. -/
theorem C17_less_lexicographic_witness :
    (⟨[1, 2, 3, 0], 3, 4⟩ : SimpleVector Nat).Inv ∧ (⟨[1, 3], 2, 2⟩ : SimpleVector Nat).Inv ∧
    SimpleVector.lt (⟨[1, 2, 3, 0], 3, 4⟩ : SimpleVector Nat) ⟨[1, 3], 2, 2⟩ = true :=
  ⟨by decide, by decide,
    (C17_less_lexicographic (⟨[1, 2, 3, 0], 3, 4⟩ : SimpleVector Nat) ⟨[1, 3], 2, 2⟩
      (by decide) (by decide)).1.2
      (Or.inr ⟨1, by decide, by decide, fun i hi => by
        have h0 : i = 0 := by omega
        subst h0
        rfl, 2, 3, rfl, rfl, by decide⟩)⟩

/-- C18: for two vectors with `size_ ≤ capacity_` over a linearly ordered element type
whose `==` is equality, exactly one of `a < b`, `a == b`, `a > b` is true; `a > b` is
`b < a`; `a <= b` holds exactly when `a < b` or `a == b`; and `a >= b` holds exactly
when `a > b` or `a == b`. -/
theorem C18_relational_consistency {α : Type} [BEq α] [LawfulBEq α] [LinearOrder α]
    (a b : SimpleVector α) (ha : a.Inv) (hb : b.Inv) :
    ((SimpleVector.lt a b = true ∧ SimpleVector.eq a b = false ∧ SimpleVector.gt a b = false) ∨
      (SimpleVector.lt a b = false ∧ SimpleVector.eq a b = true ∧ SimpleVector.gt a b = false) ∨
      (SimpleVector.lt a b = false ∧ SimpleVector.eq a b = false ∧ SimpleVector.gt a b = true)) ∧
    (SimpleVector.gt a b = true ↔ SimpleVector.lt b a = true) ∧
    (SimpleVector.le a b = true ↔ (SimpleVector.lt a b = true ∨ SimpleVector.eq a b = true)) ∧
    (SimpleVector.ge a b = true ↔ (SimpleVector.gt a b = true ∨ SimpleVector.eq a b = true)) := by
  have hne : a.toList ≠ b.toList → SimpleVector.eq a b = false := by
    intro h
    rw [Bool.eq_false_iff]
    intro he
    exact absurd ((SimpleVector.eq_iff_toList_eq a b ha hb).1 he) h
  have heq : a.toList = b.toList → SimpleVector.eq a b = true :=
    (SimpleVector.eq_iff_toList_eq a b ha hb).2
  have hlt := SimpleVector.lt_eq_lexLess a b ha hb
  have hgt : SimpleVector.gt a b = lexLess b.toList a.toList :=
    SimpleVector.lt_eq_lexLess b a hb ha
  have hle : SimpleVector.le a b = !(lexLess b.toList a.toList) := by
    rw [← hgt]
    rfl
  have hge : SimpleVector.ge a b = !(lexLess a.toList b.toList) := by
    rw [← hlt]
    rfl
  have hba : SimpleVector.lt b a = lexLess b.toList a.toList :=
    SimpleVector.lt_eq_lexLess b a hb ha
  rw [hle, hge, hlt, hgt, hba]
  rcases lexLess_trichotomy a.toList b.toList with ⟨h1, h2, h3⟩ | ⟨h1, h2, h3⟩ | ⟨h1, h2, h3⟩
  · rw [h1, h3, hne h2]
    simp
  · rw [h1, h3, heq h2]
    simp
  · rw [h1, h3, hne h2]
    simp

/-- C18 at concrete inputs: `[1, 2]` (capacity 4) and `[1, 2, 3]`: `a <= b` is true and
`a >= b` is false. -/
theorem C18_relational_consistency_witness :
    (⟨[1, 2, 0, 0], 2, 4⟩ : SimpleVector Nat).Inv ∧ (⟨[1, 2, 3], 3, 3⟩ : SimpleVector Nat).Inv ∧
    (SimpleVector.le (⟨[1, 2, 0, 0], 2, 4⟩ : SimpleVector Nat) ⟨[1, 2, 3], 3, 3⟩ = true ↔
      (SimpleVector.lt (⟨[1, 2, 0, 0], 2, 4⟩ : SimpleVector Nat) ⟨[1, 2, 3], 3, 3⟩ = true ∨
       SimpleVector.eq (⟨[1, 2, 0, 0], 2, 4⟩ : SimpleVector Nat) ⟨[1, 2, 3], 3, 3⟩ = true)) ∧
    SimpleVector.le (⟨[1, 2, 0, 0], 2, 4⟩ : SimpleVector Nat) ⟨[1, 2, 3], 3, 3⟩ = true ∧
    SimpleVector.ge (⟨[1, 2, 0, 0], 2, 4⟩ : SimpleVector Nat) ⟨[1, 2, 3], 3, 3⟩ = false :=
  ⟨by decide, by decide,
    (C18_relational_consistency (⟨[1, 2, 0, 0], 2, 4⟩ : SimpleVector Nat) ⟨[1, 2, 3], 3, 3⟩
      (by decide) (by decide)).2.2.1,
    by decide, by decide⟩

namespace SimpleVector

variable {α : Type}

theorem ctorFill_size (fresh : Nat → α) (n : Nat) (x : α) : (ctorFill fresh n x).size_ = n := by
  unfold ctorFill
  split <;> rfl

theorem ctorFill_capacity (fresh : Nat → α) (n : Nat) (x : α) :
    (ctorFill fresh n x).capacity_ = n := by
  unfold ctorFill
  split <;> rfl

theorem ctorFill_storage (fresh : Nat → α) (n : Nat) (x : α) :
    (ctorFill fresh n x).storage_ = List.replicate n x := by
  unfold ctorFill
  split
  · show std_fill (ArrayPtr.alloc fresh n) 0 n x = List.replicate n x
    unfold std_fill
    apply List.ext_getElem?
    intro i
    rw [std_generate_loop_getElem?, alloc_length, List.getElem?_replicate]
    by_cases hi : i < n
    · rw [if_pos (by omega), if_pos hi]
    · rw [if_neg (by omega), if_neg hi, List.getElem?_eq_none (by rw [alloc_length]; omega)]
  · next h =>
    simp only [ne_eq, Decidable.not_not] at h
    subst h
    rfl

theorem ctorFill_toList (fresh : Nat → α) (n : Nat) (x : α) :
    (ctorFill fresh n x).toList = List.replicate n x := by
  rw [toList, ctorFill_storage, ctorFill_size]
  apply List.take_of_length_le
  rw [List.length_replicate]

theorem ctorInit_size (fresh : Nat → α) (init : List α) :
    (ctorInit fresh init).size_ = init.length := by
  unfold ctorInit
  split <;> rfl

theorem ctorInit_capacity (fresh : Nat → α) (init : List α) :
    (ctorInit fresh init).capacity_ = init.length := by
  unfold ctorInit
  split <;> rfl

theorem ctorReserve_size (fresh : Nat → α) (object : ReserveProxyObj) :
    (ctorReserve fresh object).size_ = 0 :=
  Reserve_size fresh ctor object.GetCapacity

theorem ctorReserve_capacity (fresh : Nat → α) (object : ReserveProxyObj) :
    (ctorReserve fresh object).capacity_ = object.capacity_ := by
  unfold ctorReserve
  rw [Reserve_capacity]
  show max 0 object.capacity_ = object.capacity_
  omega

theorem PopBack_toList (v w : SimpleVector α) (h : v.PopBack = some w) :
    w.size_ = v.size_ - 1 ∧ w.capacity_ = v.capacity_ ∧ w.storage_ = v.storage_ ∧
    w.toList = v.toList.take (v.size_ - 1) := by
  unfold PopBack at h
  split at h
  · injection h with h
    subst h
    refine ⟨rfl, rfl, rfl, ?_⟩
    show v.storage_.take (v.size_ - 1) = (v.storage_.take v.size_).take (v.size_ - 1)
    rw [List.take_take, Nat.min_eq_left (by omega)]
  · exact absurd h (by simp)

end SimpleVector

/-- C19: `Clear` and `PopBack` change the size member only. For every vector, `Clear()`
sets the size to 0 and keeps the capacity and every buffer slot; for every non-empty
vector, `PopBack()` does not fail, sets the size to `size_ - 1` and keeps the capacity
and every buffer slot, so the visible sequence is the old one cut to its first
`size_ - 1` elements, which for a vector with `size_ ≤ capacity_` is the old sequence
without its last element. -/
theorem C19_Clear_PopBack_frame {α : Type} (v : SimpleVector α) :
    (v.Clear.size_ = 0 ∧ v.Clear.capacity_ = v.capacity_ ∧ v.Clear.storage_ = v.storage_) ∧
    (0 < v.size_ → ∃ w, v.PopBack = some w ∧ w.size_ = v.size_ - 1 ∧
      w.capacity_ = v.capacity_ ∧ w.storage_ = v.storage_ ∧
      w.toList = v.toList.take (v.size_ - 1) ∧
      (v.Inv → w.toList = v.toList.dropLast)) := by
  refine ⟨⟨rfl, rfl, rfl⟩, fun hpos => ?_⟩
  have hsome : v.PopBack = some { v with size_ := v.size_ - 1 } := if_pos hpos
  obtain ⟨h1, h2, h3, h4⟩ := SimpleVector.PopBack_toList v _ hsome
  refine ⟨_, hsome, h1, h2, h3, h4, fun hinv => ?_⟩
  rw [h4, List.dropLast_eq_take, SimpleVector.toList_length v hinv]

/-- C19 at concrete inputs: `PopBack` on `[1, 2, 3]` of capacity 4 succeeds and shows
`[1, 2]`. -/
theorem C19_Clear_PopBack_frame_witness :
    0 < 3 ∧
    ∃ w, (⟨[1, 2, 3, 0], 3, 4⟩ : SimpleVector Nat).PopBack = some w ∧ w.size_ = 3 - 1 ∧
      w.capacity_ = 4 ∧ w.storage_ = [1, 2, 3, 0] ∧
      w.toList = (⟨[1, 2, 3, 0], 3, 4⟩ : SimpleVector Nat).toList.take (3 - 1) ∧
      ((⟨[1, 2, 3, 0], 3, 4⟩ : SimpleVector Nat).Inv →
        w.toList = (⟨[1, 2, 3, 0], 3, 4⟩ : SimpleVector Nat).toList.dropLast) :=
  ⟨by decide, (C19_Clear_PopBack_frame (⟨[1, 2, 3, 0], 3, 4⟩ : SimpleVector Nat)).2 (by decide)⟩

/-- C20: the default constructor gives `size_ = capacity_ = 0`; `SimpleVector(n, x)`
gives `size_ = capacity_ = n` and the visible sequence of `n` copies of `x`;
`SimpleVector(n)` gives `size_ = capacity_ = n` and `n` copies of the default value
`Type{}`; construction from a literal list gives `size_ = capacity_ =` the length of the
list and the list as visible sequence; construction from `Reserve(c)` gives size 0 and
capacity `c`. -/
theorem C20_constructors {α : Type} [Inhabited α] (fresh : Nat → α) :
    ((SimpleVector.ctor : SimpleVector α).size_ = 0 ∧
      (SimpleVector.ctor : SimpleVector α).capacity_ = 0) ∧
    (∀ (n : Nat) (x : α),
      (SimpleVector.ctorFill fresh n x).size_ = n ∧
      (SimpleVector.ctorFill fresh n x).capacity_ = n ∧
      (SimpleVector.ctorFill fresh n x).toList = List.replicate n x ∧
      ∀ i, i < n → (SimpleVector.ctorFill fresh n x).toList[i]? = some x) ∧
    (∀ n : Nat,
      (SimpleVector.ctorSize fresh n).size_ = n ∧
      (SimpleVector.ctorSize fresh n).capacity_ = n ∧
      (SimpleVector.ctorSize fresh n).toList = List.replicate n default ∧
      ∀ i, i < n → (SimpleVector.ctorSize fresh n).toList[i]? = some default) ∧
    (∀ init : List α,
      (SimpleVector.ctorInit fresh init).size_ = init.length ∧
      (SimpleVector.ctorInit fresh init).capacity_ = init.length ∧
      (SimpleVector.ctorInit fresh init).toList = init) ∧
    (∀ c : Nat,
      (SimpleVector.ctorReserve fresh (Reserve c)).size_ = 0 ∧
      (SimpleVector.ctorReserve fresh (Reserve c)).capacity_ = c ∧
      (SimpleVector.ctorReserve fresh (Reserve c)).toList = []) := by
  have hfill : ∀ (n : Nat) (x : α),
      (SimpleVector.ctorFill fresh n x).size_ = n ∧
      (SimpleVector.ctorFill fresh n x).capacity_ = n ∧
      (SimpleVector.ctorFill fresh n x).toList = List.replicate n x ∧
      ∀ i, i < n → (SimpleVector.ctorFill fresh n x).toList[i]? = some x := by
    intro n x
    refine ⟨SimpleVector.ctorFill_size fresh n x, SimpleVector.ctorFill_capacity fresh n x,
      SimpleVector.ctorFill_toList fresh n x, fun i hi => ?_⟩
    rw [SimpleVector.ctorFill_toList, List.getElem?_replicate, if_pos hi]
  refine ⟨⟨rfl, rfl⟩, hfill, fun n => hfill n default,
    fun init => ⟨SimpleVector.ctorInit_size fresh init, SimpleVector.ctorInit_capacity fresh init,
      SimpleVector.ctorInit_toList fresh init⟩,
    fun c => ⟨SimpleVector.ctorReserve_size fresh _, SimpleVector.ctorReserve_capacity fresh _, ?_⟩⟩
  rw [SimpleVector.toList, SimpleVector.ctorReserve_size]
  rfl

/-- C20 at concrete inputs: `SimpleVector(3, 7)` shows `[7, 7, 7]` at position 2, with
fresh slots that held 9. -/
theorem C20_constructors_witness :
    2 < 3 ∧ (SimpleVector.ctorFill (fun _ => 9) 3 7).toList[2]? = some 7 ∧
    (SimpleVector.ctorReserve (fun _ => 9) (Reserve 5)).capacity_ = 5 :=
  ⟨by decide, ((C20_constructors (fun _ => 9)).2.1 3 7).2.2.2 2 (by decide),
    ((C20_constructors (fun _ => 9)).2.2.2.2 5).2.1⟩
